import Mathlib

set_option maxRecDepth 200000

/-!
Verification development for the standardized 2D FOV engine
(`src/fov_standard.py` with helpers from `src/helpers.py`).

The Python source is shallowly embedded: Python `float` slope arithmetic is
modelled with exact rationals (`ℚ`), Python arbitrary-precision `int`
bitfields with `ℕ` and its bitwise operations, Python lists with `List`,
and the `Dict[int, int]` of visible tiles with `ℕ → Option ℕ`.
Python truthiness of the `int` blocker fields is modelled as `≠ 0`.
-/

namespace Fov

/-- `Octant` enum from `helpers.py`: octant 1 is ENE, counted CCW. -/
inductive Octant where
  | O1 | O2 | O3 | O4 | O5 | O6 | O7 | O8
  deriving DecidableEq, Repr

/-- `Blockers` from `helpers.py`: FOV blocking data for TileMap construction.
The Python fields are ints (default 0) used for truthiness only. -/
structure Blockers where
  structure_ : ℕ := 0
  wall_n : ℕ := 0
  wall_w : ℕ := 0
  deriving DecidableEq, Repr

/-- `Tile` from `fov_standard.py` (the pygame drawing point `p1` is omitted:
it is never read by the FOV calculation). -/
structure Tile where
  tid : ℕ
  x : ℕ
  y : ℕ
  structure_ : ℕ
  wall_n : ℕ
  wall_w : ℕ
  deriving DecidableEq, Repr

instance : Inhabited Tile := ⟨⟨0, 0, 0, 0, 0, 0⟩⟩

/-- `to_tile_id` from `helpers.py`. -/
def to_tile_id (x y xdims : ℕ) : ℕ := x + y * xdims

/-- `TileMap` from `fov_standard.py`: 2D tilemap storing tiles in a single
array, row-major (`for y ... for x ...`). -/
structure TileMap where
  xdims : ℕ
  ydims : ℕ
  tiles : List Tile
  deriving Repr

/-- `TileMap.__init__`: builds the tile array from a blocked-coordinate
mapping (the Python dict with `Blockers()` default is modelled as a total
function on coordinates). -/
def TileMap.new (blocked : ℕ → ℕ → Blockers) (xdims ydims : ℕ) : TileMap :=
  { xdims := xdims
    ydims := ydims
    tiles := (List.range ydims).flatMap fun y =>
      (List.range xdims).map fun x =>
        let b := blocked x y
        { tid := to_tile_id x y xdims, x := x, y := y,
          structure_ := b.structure_, wall_n := b.wall_n, wall_w := b.wall_w } }

/-- Python list indexing `l[i]` for an integer index: a negative index within
`-len ≤ i < 0` wraps to `len + i`; anything else out of range is modelled by
the default tile (Python would raise `IndexError`). -/
def pyIndex (l : List Tile) (i : ℤ) : Tile :=
  if 0 ≤ i then l.getD i.toNat default
  else l.getD (l.length - (-i).toNat) default

/-- `TileMap.tile_at`: `tid = x + y * self.xdims; return self.tiles[tid]`. -/
def TileMap.tile_at (tm : TileMap) (x y : ℤ) : Tile :=
  pyIndex tm.tiles (x + y * tm.xdims)

/-- `pri_sec_to_relative` from `helpers.py`. -/
def pri_sec_to_relative (pri sec : ℕ) (octant : Octant) : ℤ × ℤ :=
  match octant with
  | .O1 => (pri, sec)
  | .O2 => (sec, pri)
  | .O3 => (-(sec : ℤ), pri)
  | .O4 => (-(pri : ℤ), sec)
  | .O5 => (-(pri : ℤ), -(sec : ℤ))
  | .O6 => (-(sec : ℤ), -(pri : ℤ))
  | .O7 => (sec, -(pri : ℤ))
  | .O8 => (pri, -(sec : ℤ))

/-- `boundary_radii` from `helpers.py`: maximum FOV radius to the primary and
secondary boundary for an octant. -/
def boundary_radii (ox oy xdims ydims : ℕ) (octant : Octant) (radius : ℕ) :
    ℕ × ℕ :=
  match octant with
  | .O1 => (min (xdims - ox - 1) radius, min (ydims - oy - 1) radius)
  | .O2 => (min (ydims - oy - 1) radius, min (xdims - ox - 1) radius)
  | .O3 => (min (ydims - oy - 1) radius, min ox radius)
  | .O4 => (min ox radius, min (ydims - oy - 1) radius)
  | .O5 => (min ox radius, min oy radius)
  | .O6 => (min oy radius, min ox radius)
  | .O7 => (min oy radius, min (xdims - ox - 1) radius)
  | .O8 => (min (xdims - ox - 1) radius, min oy radius)

/-- `tile_near_slopes`: slope range for the nearest side of the tile. -/
def tile_near_slopes (dpri dsec : ℕ) : ℚ × ℚ :=
  (max (((dsec : ℚ) - 1/2) / ((dpri : ℚ) - 1/2)) 0,
   min (((dsec : ℚ) + 1/2) / ((dpri : ℚ) - 1/2)) 1)

/-- `tile_far_slopes`: slope range for the farthest side of the tile. -/
def tile_far_slopes (dpri dsec : ℕ) : ℚ × ℚ :=
  (max (((dsec : ℚ) - 1/2) / ((dpri : ℚ) + 1/2)) 0,
   min (((dsec : ℚ) + 1/2) / ((dpri : ℚ) + 1/2)) 1)

/-- `tile_obtuse_slopes`: slope range for the widest-angle side of the tile. -/
def tile_obtuse_slopes (dpri dsec : ℕ) : ℚ × ℚ :=
  (max (((dsec : ℚ) + 1/2) / ((dpri : ℚ) + 1/2)) 0,
   min (((dsec : ℚ) + 1/2) / ((dpri : ℚ) - 1/2)) 1)

/-- `tile_acute_slopes`: slope range for the narrowest-angle side of the
tile; `(0, 0)` when `dsec = 0`. -/
def tile_acute_slopes (dpri dsec : ℕ) : ℚ × ℚ :=
  if dsec = 0 then (0, 0)
  else
    (max (((dsec : ℚ) - 1/2) / ((dpri : ℚ) + 1/2)) 0,
     min (((dsec : ℚ) - 1/2) / ((dpri : ℚ) - 1/2)) 1)

/-- `tile_slopes`: low/high dsec/dpri slope for a whole tile. -/
def tile_slopes (dpri dsec : ℕ) : ℚ × ℚ :=
  if dsec = 0 then (0, min (((dsec : ℚ) + 1/2) / ((dpri : ℚ) - 1/2)) 1)
  else
    (max (((dsec : ℚ) - 1/2) / ((dpri : ℚ) + 1/2)) 0,
     min (((dsec : ℚ) + 1/2) / ((dpri : ℚ) - 1/2)) 1)

/-- One Python loop `for b in range(lo, lo+len): field |= 2**b`. -/
def or_pow_range (lo len : ℕ) : ℕ :=
  (List.range' lo len).foldl (fun acc b => acc ||| 2 ^ b) 0

/-- `quantized_slopes_256`: dsec/dpri slope interval quantized into a
256-bit `(int, int)` paired bitfield, rounding the low slope up and the
high slope down.  The first word holds bits 0‥127, the second holds bits
128‥255 shifted down by 128. -/
def quantized_slopes_256 (slope_lo slope_hi : ℚ) : ℕ × ℕ :=
  let bit_lo : ℤ := max ⌈slope_lo * 255⌉ 0
  let bit_hi : ℤ := min ⌊slope_hi * 255⌋ 255
  let field_1 : ℕ := or_pow_range bit_lo.toNat (min 128 (bit_hi + 1) - bit_lo).toNat
  let field_2 : ℕ :=
    or_pow_range (max 128 bit_lo - 128).toNat (bit_hi + 1 - max 128 bit_lo).toNat
  (field_1, field_2)

/-- `is_visible`: true if the tile/part has at least one visible bit not in
the FOV's blocked bits (two independent word tests). -/
def is_visible (visible_1 visible_2 blocked_1 blocked_2 : ℕ) : Bool :=
  visible_1 - (visible_1 &&& blocked_1) > 0 ∨
    visible_2 - (visible_2 &&& blocked_2) > 0

/-- `FovTile` from `fov_standard.py`: one table cell of an `FovOctant`. -/
structure FovTile where
  rx : ℤ
  ry : ℤ
  dpri : ℕ
  dsec : ℕ
  north_wall_bits_1 : ℕ
  north_wall_bits_2 : ℕ
  west_wall_bits_1 : ℕ
  west_wall_bits_2 : ℕ
  tile_bits_1 : ℕ
  tile_bits_2 : ℕ
  buffer_ix : ℕ
  buffer_bits : ℕ
  deriving DecidableEq, Repr

/-- `FovTile.new`: octant-adjusted relative coordinates, quantized slope
ranges for tile and walls, and blocking buffer bits. -/
def FovTile.new (dpri dsec : ℕ) (octant : Octant) : FovTile :=
  let rel := pri_sec_to_relative dpri dsec octant
  let ts := tile_slopes dpri dsec
  let nws : (ℚ × ℚ) × (ℚ × ℚ) :=
    match octant with
    | .O1 => (tile_acute_slopes dpri dsec, tile_near_slopes dpri dsec)
    | .O2 => (tile_near_slopes dpri dsec, tile_acute_slopes dpri dsec)
    | .O3 => (tile_near_slopes dpri dsec, tile_obtuse_slopes dpri dsec)
    | .O4 => (tile_acute_slopes dpri dsec, tile_far_slopes dpri dsec)
    | .O5 => (tile_obtuse_slopes dpri dsec, tile_far_slopes dpri dsec)
    | .O6 => (tile_far_slopes dpri dsec, tile_obtuse_slopes dpri dsec)
    | .O7 => (tile_far_slopes dpri dsec, tile_acute_slopes dpri dsec)
    | .O8 => (tile_obtuse_slopes dpri dsec, tile_near_slopes dpri dsec)
  let n_wall := quantized_slopes_256 nws.1.1 nws.1.2
  let w_wall := quantized_slopes_256 nws.2.1 nws.2.2
  let tile := quantized_slopes_256 ts.1 ts.2
  let buffer_ix := 2 ^ dsec
  -- cardinal alignment / diagonal alignment / all other tiles
  let buffer_bits :=
    if dsec = 0 then buffer_ix
    else if dsec = dpri then buffer_ix ||| buffer_ix >>> 1
    else buffer_ix ||| buffer_ix >>> 1
  { rx := rel.1, ry := rel.2, dpri := dpri, dsec := dsec,
    north_wall_bits_1 := n_wall.1, north_wall_bits_2 := n_wall.2,
    west_wall_bits_1 := w_wall.1, west_wall_bits_2 := w_wall.2,
    tile_bits_1 := tile.1, tile_bits_2 := tile.2,
    buffer_ix := buffer_ix, buffer_bits := buffer_bits }

/-- The circular-shaping inclusion test of `FovOctant.new`:
`r = (dpri-0.5)² + (dsec-0.5)²` (with `dsec²` when `dpri = 0`, a branch that
cannot fire since `dpri` starts at 1), included iff `r < radius²`. -/
def shaping_included (radius dpri dsec : ℕ) : Bool :=
  let m : ℚ := 1/2
  let limit : ℚ := (radius : ℚ) * (radius : ℚ)
  let r : ℚ :=
    if dpri = 0 then ((dpri : ℚ) - m) * ((dpri : ℚ) - m) + ((dsec : ℚ) * (dsec : ℚ))
    else ((dpri : ℚ) - m) * ((dpri : ℚ) - m) + ((dsec : ℚ) - m) * ((dsec : ℚ) - m)
  r < limit

/-- `FovOctant` from `fov_standard.py`: table cells plus the cumulative
index `max_fov_ix` keyed by radius. -/
structure FovOctant where
  tiles : List FovTile
  max_fov_ix : List ℕ
  deriving Repr

/-- The inner `for dsec in range(dpri + 1)` loop of `FovOctant.new`:
tiles of one `dpri` column that pass the circular-shaping test. -/
def octant_column (radius dpri : ℕ) (octant : Octant) : List FovTile :=
  ((List.range (dpri + 1)).filter fun dsec => shaping_included radius dpri dsec).map
    fun dsec => FovTile.new dpri dsec octant

/-- The outer `for dpri in range(1, radius + 1)` loop of `FovOctant.new`,
unrolled as a recursion on the number of completed columns: accumulates
`tiles`, `max_fov_ix` (starting from `[0]`) and the running count `fov_ix`. -/
def FovOctant.loop (radius : ℕ) (octant : Octant) : ℕ → List FovTile × List ℕ × ℕ
  | 0 => ([], [0], 0)
  | k + 1 =>
    let acc := FovOctant.loop radius octant k
    let col := octant_column radius (k + 1) octant
    (acc.1 ++ col, acc.2.1 ++ [acc.2.2 + col.length], acc.2.2 + col.length)

/-- `FovOctant.new`. -/
def FovOctant.new (radius : ℕ) (octant : Octant) : FovOctant :=
  let acc := FovOctant.loop radius octant radius
  ⟨acc.1, acc.2.1⟩

/-- `FovMap` from `fov_standard.py`. -/
structure FovMap where
  octant_1 : FovOctant
  octant_2 : FovOctant
  octant_3 : FovOctant
  octant_4 : FovOctant
  octant_5 : FovOctant
  octant_6 : FovOctant
  octant_7 : FovOctant
  octant_8 : FovOctant
  deriving Repr

/-- `FovMap.new`. -/
def FovMap.new (radius : ℕ) : FovMap :=
  { octant_1 := FovOctant.new radius .O1
    octant_2 := FovOctant.new radius .O2
    octant_3 := FovOctant.new radius .O3
    octant_4 := FovOctant.new radius .O4
    octant_5 := FovOctant.new radius .O5
    octant_6 := FovOctant.new radius .O6
    octant_7 := FovOctant.new radius .O7
    octant_8 := FovOctant.new radius .O8 }

/-- `FovMaps` from `fov_standard.py`: one `FovMap` per radius value. -/
structure FovMaps where
  maps : List FovMap

/-- `FovMaps.new`. -/
def FovMaps.new (max_fov_radius : ℕ) : FovMaps :=
  ⟨(List.range max_fov_radius).map fun r => FovMap.new r⟩

/-!  Serialized (dictionary) forms.  `FovTile.to_dict` produces a JSON
dictionary with the fixed truncated keys `rx ry dp ds nw1 nw2 ww1 ww2 tb1
tb2 bix bbs`; it is modelled as a structure with one field per key.  The
gzip/JSON-string encoding layer (`json.dumps`/`json.loads` and `gzip`) is
the Python standard library and is not re-modelled: serialization is
embedded at the list-of-dictionaries level that `to_json`/`from_json`
pass to/from it. -/

/-- Dictionary form of `FovTile` (`FovTile.to_dict`). -/
structure FovTileDict where
  rx : ℤ
  ry : ℤ
  dp : ℕ
  ds : ℕ
  nw1 : ℕ
  nw2 : ℕ
  ww1 : ℕ
  ww2 : ℕ
  tb1 : ℕ
  tb2 : ℕ
  bix : ℕ
  bbs : ℕ
  deriving DecidableEq, Repr

/-- `FovTile.to_dict`. -/
def FovTile.to_dict (t : FovTile) : FovTileDict :=
  { rx := t.rx, ry := t.ry, dp := t.dpri, ds := t.dsec,
    nw1 := t.north_wall_bits_1, nw2 := t.north_wall_bits_2,
    ww1 := t.west_wall_bits_1, ww2 := t.west_wall_bits_2,
    tb1 := t.tile_bits_1, tb2 := t.tile_bits_2,
    bix := t.buffer_ix, bbs := t.buffer_bits }

/-- `FovTile.from_dict`. -/
def FovTile.from_dict (d : FovTileDict) : FovTile :=
  { rx := d.rx, ry := d.ry, dpri := d.dp, dsec := d.ds,
    north_wall_bits_1 := d.nw1, north_wall_bits_2 := d.nw2,
    west_wall_bits_1 := d.ww1, west_wall_bits_2 := d.ww2,
    tile_bits_1 := d.tb1, tile_bits_2 := d.tb2,
    buffer_ix := d.bix, buffer_bits := d.bbs }

/-- Dictionary form of `FovOctant` (keys `t`, `mfi`). -/
structure FovOctantDict where
  t : List FovTileDict
  mfi : List ℕ

/-- `FovOctant.to_dict`. -/
def FovOctant.to_dict (o : FovOctant) : FovOctantDict :=
  { t := o.tiles.map FovTile.to_dict, mfi := o.max_fov_ix }

/-- `FovOctant.from_dict` (the `[i for i in d["mfi"]]` copy is the
identity on the list). -/
def FovOctant.from_dict (d : FovOctantDict) : FovOctant :=
  ⟨d.t.map FovTile.from_dict, d.mfi.map fun i => i⟩

/-- Dictionary form of `FovMap` (keys `o1`‥`o8`). -/
structure FovMapDict where
  o1 : FovOctantDict
  o2 : FovOctantDict
  o3 : FovOctantDict
  o4 : FovOctantDict
  o5 : FovOctantDict
  o6 : FovOctantDict
  o7 : FovOctantDict
  o8 : FovOctantDict

/-- `FovMap.to_dict`. -/
def FovMap.to_dict (m : FovMap) : FovMapDict :=
  { o1 := m.octant_1.to_dict, o2 := m.octant_2.to_dict,
    o3 := m.octant_3.to_dict, o4 := m.octant_4.to_dict,
    o5 := m.octant_5.to_dict, o6 := m.octant_6.to_dict,
    o7 := m.octant_7.to_dict, o8 := m.octant_8.to_dict }

/-- `FovMap.from_dict`. -/
def FovMap.from_dict (d : FovMapDict) : FovMap :=
  { octant_1 := FovOctant.from_dict d.o1, octant_2 := FovOctant.from_dict d.o2,
    octant_3 := FovOctant.from_dict d.o3, octant_4 := FovOctant.from_dict d.o4,
    octant_5 := FovOctant.from_dict d.o5, octant_6 := FovOctant.from_dict d.o6,
    octant_7 := FovOctant.from_dict d.o7, octant_8 := FovOctant.from_dict d.o8 }

/-- `FovMaps.to_list`: list form handed to `json.dumps` by `to_json`. -/
def FovMaps.to_list (ms : FovMaps) : List FovMapDict :=
  ms.maps.map FovMap.to_dict

/-- `FovMaps.from_json` after the `json.loads` step: rebuilds the maps from
the list of dictionaries. -/
def FovMaps.from_list (jlist : List FovMapDict) : FovMaps :=
  ⟨jlist.map FovMap.from_dict⟩

/-!  The runtime sweep.  The eight `get_visible_tiles_N` functions share
one loop skeleton verbatim (boundary filter, column-buffer bookkeeping,
buffer pruning, append-if-visible, mark-unseen); they differ in the
octant-specific check sequence performed against the blocked bitsets and
in the origin-wall handling before the loop.  The skeleton is embedded
once (`sweepStep`/`runSweep`) and the six distinct check sequences as
`OctantBody` values, exactly as in the source bodies. -/

/-- Per-octant check sequence: from the map tile, the table cell and the
two blocked words, produce the updated blocked words and `visible_parts`. -/
abbrev OctantBody := Tile → FovTile → ℕ → ℕ → ℕ × ℕ × ℕ

/-- Octant 1 check sequence `W -> N -> T` (structure blocking added inside
the tile-visible branch). -/
def check_wnt : OctantBody := fun tile ft b1 b2 =>
  let s0 : ℕ × ℕ × ℕ := (b1, b2, 0)
  let s1 :=
    if tile.wall_w ≠ 0 ∧ is_visible ft.west_wall_bits_1 ft.west_wall_bits_2 s0.1 s0.2.1 then
      (s0.1 ||| ft.west_wall_bits_1, s0.2.1 ||| ft.west_wall_bits_2, s0.2.2 ||| 0b1100)
    else s0
  let s2 :=
    if tile.wall_n ≠ 0 ∧ is_visible ft.north_wall_bits_1 ft.north_wall_bits_2 s1.1 s1.2.1 then
      (s1.1 ||| ft.north_wall_bits_1, s1.2.1 ||| ft.north_wall_bits_2, s1.2.2 ||| 0b1010)
    else s1
  if is_visible ft.tile_bits_1 ft.tile_bits_2 s2.1 s2.2.1 then
    if tile.structure_ ≠ 0 then
      (s2.1 ||| ft.tile_bits_1, s2.2.1 ||| ft.tile_bits_2, s2.2.2 ||| 0b0001)
    else (s2.1, s2.2.1, s2.2.2 ||| 0b0001)
  else s2

/-- Octant 2 check sequence `N -> W -> T` (structure blocking added inside
the tile-visible branch). -/
def check_nwt : OctantBody := fun tile ft b1 b2 =>
  let s0 : ℕ × ℕ × ℕ := (b1, b2, 0)
  let s1 :=
    if tile.wall_n ≠ 0 ∧ is_visible ft.north_wall_bits_1 ft.north_wall_bits_2 s0.1 s0.2.1 then
      (s0.1 ||| ft.north_wall_bits_1, s0.2.1 ||| ft.north_wall_bits_2, s0.2.2 ||| 0b1010)
    else s0
  let s2 :=
    if tile.wall_w ≠ 0 ∧ is_visible ft.west_wall_bits_1 ft.west_wall_bits_2 s1.1 s1.2.1 then
      (s1.1 ||| ft.west_wall_bits_1, s1.2.1 ||| ft.west_wall_bits_2, s1.2.2 ||| 0b1100)
    else s1
  if is_visible ft.tile_bits_1 ft.tile_bits_2 s2.1 s2.2.1 then
    if tile.structure_ ≠ 0 then
      (s2.1 ||| ft.tile_bits_1, s2.2.1 ||| ft.tile_bits_2, s2.2.2 ||| 0b0001)
    else (s2.1, s2.2.1, s2.2.2 ||| 0b0001)
  else s2

/-- Octants 3 and 4 check sequence `N -> T -> W` (structure blocking added
inside the `visible_parts > 0` branch, after the West check). -/
def check_ntw : OctantBody := fun tile ft b1 b2 =>
  let s0 : ℕ × ℕ × ℕ := (b1, b2, 0)
  let s1 :=
    if tile.wall_n ≠ 0 ∧ is_visible ft.north_wall_bits_1 ft.north_wall_bits_2 s0.1 s0.2.1 then
      (s0.1 ||| ft.north_wall_bits_1, s0.2.1 ||| ft.north_wall_bits_2, s0.2.2 ||| 0b1010)
    else s0
  let s2 :=
    if is_visible ft.tile_bits_1 ft.tile_bits_2 s1.1 s1.2.1 then
      (s1.1, s1.2.1, s1.2.2 ||| 0b0001)
    else s1
  let s3 :=
    if tile.wall_w ≠ 0 ∧ is_visible ft.west_wall_bits_1 ft.west_wall_bits_2 s2.1 s2.2.1 then
      (s2.1 ||| ft.west_wall_bits_1, s2.2.1 ||| ft.west_wall_bits_2, s2.2.2 ||| 0b1100)
    else s2
  if s3.2.2 > 0 ∧ tile.structure_ ≠ 0 then
    (s3.1 ||| ft.tile_bits_1, s3.2.1 ||| ft.tile_bits_2, s3.2.2)
  else s3

/-- Octants 5 and 6 check sequence as written in the source bodies:
`T -> N -> W` (structure blocking added inside the `visible_parts > 0`
branch).  The North-wall test precedes the West-wall test in both
functions, although the source comment in octant 5 announces
`check T -> W -> N`. -/
def check_tnw : OctantBody := fun tile ft b1 b2 =>
  let s0 : ℕ × ℕ × ℕ := (b1, b2, 0)
  let s1 :=
    if is_visible ft.tile_bits_1 ft.tile_bits_2 s0.1 s0.2.1 then
      (s0.1, s0.2.1, s0.2.2 ||| 0b0001)
    else s0
  let s2 :=
    if tile.wall_n ≠ 0 ∧ is_visible ft.north_wall_bits_1 ft.north_wall_bits_2 s1.1 s1.2.1 then
      (s1.1 ||| ft.north_wall_bits_1, s1.2.1 ||| ft.north_wall_bits_2, s1.2.2 ||| 0b1010)
    else s1
  let s3 :=
    if tile.wall_w ≠ 0 ∧ is_visible ft.west_wall_bits_1 ft.west_wall_bits_2 s2.1 s2.2.1 then
      (s2.1 ||| ft.west_wall_bits_1, s2.2.1 ||| ft.west_wall_bits_2, s2.2.2 ||| 0b1100)
    else s2
  if s3.2.2 > 0 ∧ tile.structure_ ≠ 0 then
    (s3.1 ||| ft.tile_bits_1, s3.2.1 ||| ft.tile_bits_2, s3.2.2)
  else s3

/-- Octants 7 and 8 check sequence `W -> T -> N` (structure blocking added
inside the `visible_parts > 0` branch). -/
def check_wtn : OctantBody := fun tile ft b1 b2 =>
  let s0 : ℕ × ℕ × ℕ := (b1, b2, 0)
  let s1 :=
    if tile.wall_w ≠ 0 ∧ is_visible ft.west_wall_bits_1 ft.west_wall_bits_2 s0.1 s0.2.1 then
      (s0.1 ||| ft.west_wall_bits_1, s0.2.1 ||| ft.west_wall_bits_2, s0.2.2 ||| 0b1100)
    else s0
  let s2 :=
    if is_visible ft.tile_bits_1 ft.tile_bits_2 s1.1 s1.2.1 then
      (s1.1, s1.2.1, s1.2.2 ||| 0b0001)
    else s1
  let s3 :=
    if tile.wall_n ≠ 0 ∧ is_visible ft.north_wall_bits_1 ft.north_wall_bits_2 s2.1 s2.2.1 then
      (s2.1 ||| ft.north_wall_bits_1, s2.2.1 ||| ft.north_wall_bits_2, s2.2.2 ||| 0b1010)
    else s2
  if s3.2.2 > 0 ∧ tile.structure_ ≠ 0 then
    (s3.1 ||| ft.tile_bits_1, s3.2.1 ||| ft.tile_bits_2, s3.2.2)
  else s3

/-- Modelled from the spec (§4.4 check-order table, row O5):
check sequence `Tile -> West -> North`, i.e. `check_tnw` with the two wall
checks exchanged.  This definition follows the spec's words and is used
only to compare the claimed order against the source's order. -/
def check_twn_spec : OctantBody := fun tile ft b1 b2 =>
  let s0 : ℕ × ℕ × ℕ := (b1, b2, 0)
  let s1 :=
    if is_visible ft.tile_bits_1 ft.tile_bits_2 s0.1 s0.2.1 then
      (s0.1, s0.2.1, s0.2.2 ||| 0b0001)
    else s0
  let s2 :=
    if tile.wall_w ≠ 0 ∧ is_visible ft.west_wall_bits_1 ft.west_wall_bits_2 s1.1 s1.2.1 then
      (s1.1 ||| ft.west_wall_bits_1, s1.2.1 ||| ft.west_wall_bits_2, s1.2.2 ||| 0b1100)
    else s1
  let s3 :=
    if tile.wall_n ≠ 0 ∧ is_visible ft.north_wall_bits_1 ft.north_wall_bits_2 s2.1 s2.2.1 then
      (s2.1 ||| ft.north_wall_bits_1, s2.2.1 ||| ft.north_wall_bits_2, s2.2.2 ||| 0b1010)
    else s2
  if s3.2.2 > 0 ∧ tile.structure_ ≠ 0 then
    (s3.1 ||| ft.tile_bits_1, s3.2.1 ||| ft.tile_bits_2, s3.2.2)
  else s3

/-- The mutable locals of one octant sweep. -/
structure SweepState where
  blocked_bits_1 : ℕ
  blocked_bits_2 : ℕ
  visible_tiles : List (ℕ × ℕ)
  prev_buffer : ℕ
  curr_buffer : ℕ
  prev_pri : ℕ
  deriving Repr

/-- Initial sweep state (all-zero locals, empty output). -/
def SweepState.init : SweepState := ⟨0, 0, [], 0, 0, 0⟩

/-- One iteration of the shared `for fov_tile in fov_tiles[:pri_ix_max]`
loop body: boundary filter, column-buffer shift, buffer pruning, and the
octant-specific check sequence `body`. -/
def sweepStep (body : OctantBody) (ox oy : ℤ) (tilemap : TileMap)
    (sec_ix_max : ℕ) (st : SweepState) (ft : FovTile) : SweepState :=
  if ft.dsec > sec_ix_max then st
  else
    let st :=
      if ft.dpri > st.prev_pri then
        { st with prev_buffer := st.curr_buffer, curr_buffer := 0,
                  prev_pri := st.prev_pri + 1 }
      else st
    if ft.buffer_bits &&& st.prev_buffer = ft.buffer_bits then
      { st with curr_buffer := st.curr_buffer ||| ft.buffer_ix }
    else
      let tile := tilemap.tile_at (ox + ft.rx) (oy + ft.ry)
      let r := body tile ft st.blocked_bits_1 st.blocked_bits_2
      { blocked_bits_1 := r.1, blocked_bits_2 := r.2.1,
        visible_tiles :=
          if r.2.2 > 0 then st.visible_tiles ++ [(tile.tid, r.2.2)]
          else st.visible_tiles,
        prev_buffer := st.prev_buffer,
        curr_buffer :=
          if r.2.2 &&& 1 = 0 then st.curr_buffer ||| ft.buffer_ix
          else st.curr_buffer,
        prev_pri := ft.dpri }

/-- The shared sweep loop over `fov_tiles[:max_fov_ix[max_dpri]]`, from a
given initial state. -/
def runSweep (body : OctantBody) (ox oy : ℤ) (max_dpri max_dsec : ℕ)
    (tilemap : TileMap) (fov_octant : FovOctant) (st : SweepState) :
    List (ℕ × ℕ) :=
  ((fov_octant.tiles.take (fov_octant.max_fov_ix.getD max_dpri 0)).foldl
    (sweepStep body ox oy tilemap max_dsec) st).visible_tiles

/-- `get_visible_tiles_1` (octant 1: check `W -> N -> T`). -/
def get_visible_tiles_1 (ox oy : ℤ) (max_dpri max_dsec : ℕ)
    (tilemap : TileMap) (fov_octant : FovOctant) : List (ℕ × ℕ) :=
  runSweep check_wnt ox oy max_dpri max_dsec tilemap fov_octant .init

/-- `get_visible_tiles_2` (octant 2: check `N -> W -> T`). -/
def get_visible_tiles_2 (ox oy : ℤ) (max_dpri max_dsec : ℕ)
    (tilemap : TileMap) (fov_octant : FovOctant) : List (ℕ × ℕ) :=
  runSweep check_nwt ox oy max_dpri max_dsec tilemap fov_octant .init

/-- `get_visible_tiles_3` (octant 3: check `N -> T -> W`; an origin West
wall seeds the top blocking bit `2^255`, i.e. bit 127 of the upper word). -/
def get_visible_tiles_3 (ox oy : ℤ) (origin : Tile) (max_dpri max_dsec : ℕ)
    (tilemap : TileMap) (fov_octant : FovOctant) : List (ℕ × ℕ) :=
  let st : SweepState :=
    if origin.wall_w ≠ 0 then
      { SweepState.init with
          blocked_bits_2 := 0 ||| 170141183460469231731687303715884105728 }
    else .init
  runSweep check_ntw ox oy max_dpri max_dsec tilemap fov_octant st

/-- `get_visible_tiles_4` (octant 4: check `N -> T -> W`; if the origin has
a West wall the rest of the octant is blocked and the empty list is
returned at once). -/
def get_visible_tiles_4 (ox oy : ℤ) (origin : Tile) (max_dpri max_dsec : ℕ)
    (tilemap : TileMap) (fov_octant : FovOctant) : List (ℕ × ℕ) :=
  if origin.wall_w ≠ 0 then []
  else runSweep check_ntw ox oy max_dpri max_dsec tilemap fov_octant .init

/-- `get_visible_tiles_5` (octant 5; if the origin has a West wall the rest
of the octant is blocked and the empty list is returned at once).  The
body performs `T -> N -> W` (see `check_tnw`). -/
def get_visible_tiles_5 (ox oy : ℤ) (origin : Tile) (max_dpri max_dsec : ℕ)
    (tilemap : TileMap) (fov_octant : FovOctant) : List (ℕ × ℕ) :=
  if origin.wall_w ≠ 0 then []
  else runSweep check_tnw ox oy max_dpri max_dsec tilemap fov_octant .init

/-- `get_visible_tiles_6` (octant 6: check `T -> N -> W`; if the origin has
a North wall the rest of the octant is blocked). -/
def get_visible_tiles_6 (ox oy : ℤ) (origin : Tile) (max_dpri max_dsec : ℕ)
    (tilemap : TileMap) (fov_octant : FovOctant) : List (ℕ × ℕ) :=
  if origin.wall_n ≠ 0 then []
  else runSweep check_tnw ox oy max_dpri max_dsec tilemap fov_octant .init

/-- `get_visible_tiles_7` (octant 7: check `W -> T -> N`; if the origin has
a North wall the rest of the octant is blocked). -/
def get_visible_tiles_7 (ox oy : ℤ) (origin : Tile) (max_dpri max_dsec : ℕ)
    (tilemap : TileMap) (fov_octant : FovOctant) : List (ℕ × ℕ) :=
  if origin.wall_n ≠ 0 then []
  else runSweep check_wtn ox oy max_dpri max_dsec tilemap fov_octant .init

/-- `get_visible_tiles_8` (octant 8: check `W -> T -> N`). -/
def get_visible_tiles_8 (ox oy : ℤ) (max_dpri max_dsec : ℕ)
    (tilemap : TileMap) (fov_octant : FovOctant) : List (ℕ × ℕ) :=
  runSweep check_wtn ox oy max_dpri max_dsec tilemap fov_octant .init

/-- `update_visible_tiles`: merge one per-octant list into the dictionary
of visible tiles (the Python `Dict[int, int]` is modelled as
`ℕ → Option ℕ`; `d.get(tid, 0b0000)` is `(d tid).getD 0`). -/
def update_visible_tiles (to_dict : ℕ → Option ℕ) (from_list : List (ℕ × ℕ)) :
    ℕ → Option ℕ :=
  from_list.foldl
    (fun d p tid => if tid = p.1 then some ((d p.1).getD 0 ||| p.2) else d tid)
    to_dict

/-- `fov_calc`: tile IDs and visible parts (`CWNT` bitflag) seen from the
origin `(ox, oy)` with the given radius. -/
def fov_calc (ox oy : ℕ) (tilemap : TileMap) (fov_map : FovMap) (radius : ℕ) :
    ℕ → Option ℕ :=
  let tm := tilemap
  let origin := tm.tile_at ox oy
  let xdims := tm.xdims
  let ydims := tm.ydims
  let origin_visible : ℕ :=
    (if origin.wall_n ≠ 0 then 0b1010 else 0) |||
      ((if origin.wall_w ≠ 0 then 0b1100 else 0) ||| 0b0001)
  let visible_tiles : ℕ → Option ℕ :=
    fun tid => if tid = origin.tid then some origin_visible else none
  -- octants 1-2
  let b12 := boundary_radii ox oy xdims ydims .O1 radius
  let vis1 := get_visible_tiles_1 ox oy b12.1 b12.2 tm fov_map.octant_1
  let visible_tiles := update_visible_tiles visible_tiles vis1
  let vis2 := get_visible_tiles_2 ox oy b12.2 b12.1 tm fov_map.octant_2
  let visible_tiles := update_visible_tiles visible_tiles vis2
  -- octants 3-4
  let b34 := boundary_radii ox oy xdims ydims .O4 radius
  let vis3 := get_visible_tiles_3 ox oy origin b34.2 b34.1 tm fov_map.octant_3
  let visible_tiles := update_visible_tiles visible_tiles vis3
  let vis4 := get_visible_tiles_4 ox oy origin b34.1 b34.2 tm fov_map.octant_4
  let visible_tiles := update_visible_tiles visible_tiles vis4
  -- octants 5-6
  let b56 := boundary_radii ox oy xdims ydims .O5 radius
  let vis5 := get_visible_tiles_5 ox oy origin b56.1 b56.2 tm fov_map.octant_5
  let visible_tiles := update_visible_tiles visible_tiles vis5
  let vis6 := get_visible_tiles_6 ox oy origin b56.2 b56.1 tm fov_map.octant_6
  let visible_tiles := update_visible_tiles visible_tiles vis6
  -- octants 7-8
  let b78 := boundary_radii ox oy xdims ydims .O8 radius
  let vis7 := get_visible_tiles_7 ox oy origin b78.2 b78.1 tm fov_map.octant_7
  let visible_tiles := update_visible_tiles visible_tiles vis7
  let vis8 := get_visible_tiles_8 ox oy b78.1 b78.2 tm fov_map.octant_8
  let visible_tiles := update_visible_tiles visible_tiles vis8
  visible_tiles

/-!  Reference (pruning-free) sweep, used by the refinement claim: the same
loop with the buffer-pruning shortcut removed — every entry within the
`dsec` bound is tested against the blocked bitsets. -/

/-- State of the pruning-free reference sweep (no column buffers). -/
structure RefState where
  blocked_bits_1 : ℕ
  blocked_bits_2 : ℕ
  visible_tiles : List (ℕ × ℕ)
  deriving Repr

/-- Initial reference state. -/
def RefState.init : RefState := ⟨0, 0, []⟩

/-- One iteration of the reference loop: boundary filter and the
octant-specific check sequence, with no buffer bookkeeping. -/
def refStep (body : OctantBody) (ox oy : ℤ) (tilemap : TileMap)
    (sec_ix_max : ℕ) (st : RefState) (ft : FovTile) : RefState :=
  if ft.dsec > sec_ix_max then st
  else
    let tile := tilemap.tile_at (ox + ft.rx) (oy + ft.ry)
    let r := body tile ft st.blocked_bits_1 st.blocked_bits_2
    { blocked_bits_1 := r.1, blocked_bits_2 := r.2.1,
      visible_tiles :=
        if r.2.2 > 0 then st.visible_tiles ++ [(tile.tid, r.2.2)]
        else st.visible_tiles }

/-- The reference sweep loop over the same table slice. -/
def runSweepRef (body : OctantBody) (ox oy : ℤ) (max_dpri max_dsec : ℕ)
    (tilemap : TileMap) (fov_octant : FovOctant) (st : RefState) :
    List (ℕ × ℕ) :=
  ((fov_octant.tiles.take (fov_octant.max_fov_ix.getD max_dpri 0)).foldl
    (refStep body ox oy tilemap max_dsec) st).visible_tiles

/-- Pruning-free `get_visible_tiles_1`. -/
def get_visible_tiles_1_ref (ox oy : ℤ) (max_dpri max_dsec : ℕ)
    (tilemap : TileMap) (fov_octant : FovOctant) : List (ℕ × ℕ) :=
  runSweepRef check_wnt ox oy max_dpri max_dsec tilemap fov_octant .init

/-- Pruning-free `get_visible_tiles_2`. -/
def get_visible_tiles_2_ref (ox oy : ℤ) (max_dpri max_dsec : ℕ)
    (tilemap : TileMap) (fov_octant : FovOctant) : List (ℕ × ℕ) :=
  runSweepRef check_nwt ox oy max_dpri max_dsec tilemap fov_octant .init

/-- Pruning-free `get_visible_tiles_3`. -/
def get_visible_tiles_3_ref (ox oy : ℤ) (origin : Tile) (max_dpri max_dsec : ℕ)
    (tilemap : TileMap) (fov_octant : FovOctant) : List (ℕ × ℕ) :=
  let st : RefState :=
    if origin.wall_w ≠ 0 then
      { RefState.init with
          blocked_bits_2 := 0 ||| 170141183460469231731687303715884105728 }
    else .init
  runSweepRef check_ntw ox oy max_dpri max_dsec tilemap fov_octant st

/-- Pruning-free `get_visible_tiles_4`. -/
def get_visible_tiles_4_ref (ox oy : ℤ) (origin : Tile) (max_dpri max_dsec : ℕ)
    (tilemap : TileMap) (fov_octant : FovOctant) : List (ℕ × ℕ) :=
  if origin.wall_w ≠ 0 then []
  else runSweepRef check_ntw ox oy max_dpri max_dsec tilemap fov_octant .init

/-- Pruning-free `get_visible_tiles_5`. -/
def get_visible_tiles_5_ref (ox oy : ℤ) (origin : Tile) (max_dpri max_dsec : ℕ)
    (tilemap : TileMap) (fov_octant : FovOctant) : List (ℕ × ℕ) :=
  if origin.wall_w ≠ 0 then []
  else runSweepRef check_tnw ox oy max_dpri max_dsec tilemap fov_octant .init

/-- Pruning-free `get_visible_tiles_6`. -/
def get_visible_tiles_6_ref (ox oy : ℤ) (origin : Tile) (max_dpri max_dsec : ℕ)
    (tilemap : TileMap) (fov_octant : FovOctant) : List (ℕ × ℕ) :=
  if origin.wall_n ≠ 0 then []
  else runSweepRef check_tnw ox oy max_dpri max_dsec tilemap fov_octant .init

/-- Pruning-free `get_visible_tiles_7`. -/
def get_visible_tiles_7_ref (ox oy : ℤ) (origin : Tile) (max_dpri max_dsec : ℕ)
    (tilemap : TileMap) (fov_octant : FovOctant) : List (ℕ × ℕ) :=
  if origin.wall_n ≠ 0 then []
  else runSweepRef check_wtn ox oy max_dpri max_dsec tilemap fov_octant .init

/-- Pruning-free `get_visible_tiles_8`. -/
def get_visible_tiles_8_ref (ox oy : ℤ) (max_dpri max_dsec : ℕ)
    (tilemap : TileMap) (fov_octant : FovOctant) : List (ℕ × ℕ) :=
  runSweepRef check_wtn ox oy max_dpri max_dsec tilemap fov_octant .init

/-!  Configuration (`Settings.__init__`).  Only the validation-relevant and
numeric fields are modelled; the pygame font/color/drawing fields are
external rendering state never read by the FOV core.  The Python
`ValueError` raise is modelled as `Except.error` with the message text. -/

/-- `Coords` from `helpers.py` (integer map coordinates). -/
structure Coords where
  x : ℤ
  y : ℤ
  deriving DecidableEq, Repr

/-- The numeric fields of a constructed `Settings`. -/
structure Settings where
  width : ℕ
  height : ℕ
  xdims : ℤ
  ydims : ℤ
  tile_size : ℕ
  line_width : ℕ
  subtiles_xy : ℕ
  subtile_size : ℕ
  max_radius : ℤ
  radius : ℤ
  deriving DecidableEq, Repr

/-- `Settings.__init__`: rejects non-positive map dimensions with a
`ValueError`; clamps `max_radius` to at most 127 and `radius` to at most
`max_radius`.  No lower bound on `radius` is checked. -/
def Settings.init (width height : ℕ) (map_dims : Coords)
    (radius max_radius : ℤ) (tile_size subtiles_xy line_width : ℕ) :
    Except String Settings :=
  if map_dims.x < 1 ∨ map_dims.y < 1 then
    .error "all map dimensions must be > 0!"
  else
    .ok { width := width, height := height,
          xdims := map_dims.x, ydims := map_dims.y,
          tile_size := tile_size, line_width := line_width,
          subtiles_xy := subtiles_xy,
          subtile_size := tile_size / subtiles_xy,
          max_radius := min max_radius 127,
          radius := min radius (min max_radius 127) }

/-!  Concrete scenario data and statement helpers. -/

/-- A fully open (blocker-free) tilemap. -/
def openTileMap (xdims ydims : ℕ) : TileMap :=
  TileMap.new (fun _ _ => {}) xdims ydims

/-- Scenario B blockers: `structure=true` at cell `(3, 2)` only. -/
def scenarioB_blockers (x y : ℕ) : Blockers :=
  if x = 3 ∧ y = 2 then { structure_ := 1 } else {}

/-- Scenario B map: a 5×5 grid whose only blocker is the structure at
`(3, 2)`. -/
def scenarioB_map : TileMap := TileMap.new scenarioB_blockers 5 5

/-- Scenario B result map: origin `(2, 2)`, radius 3. -/
def scenarioB_result : ℕ → Option ℕ :=
  fov_calc 2 2 scenarioB_map (FovMap.new 3) 3

/-- The tile-visibility bit of a cell in a `fov_calc` result map: bit `T`
of the `CWNT` record, an absent cell having no parts visible. -/
def tile_bit (result : ℕ → Option ℕ) (tid : ℕ) : ℕ :=
  (result tid).getD 0 &&& 1

/-- Bit `b` of a two-word 256-bit bitfield pair (`b = 128‥255` live in the
second word shifted down by 128). -/
def pairBit (p : ℕ × ℕ) (b : ℕ) : Bool :=
  if b < 128 then p.1.testBit b else p.2.testBit (b - 128)

/-- Quantized whole-tile bits of the canonical cell `(dpri, dsec)` (the
same for every octant). -/
def tileQBits (dpri dsec : ℕ) : ℕ × ℕ :=
  quantized_slopes_256 (tile_slopes dpri dsec).1 (tile_slopes dpri dsec).2

/-- Clear the West wall of the cell `(ox, oy)` in a blockers mapping
(used to compare sweeps with and without an origin West wall). -/
def clear_west_wall (blocked : ℕ → ℕ → Blockers) (ox oy : ℕ) :
    ℕ → ℕ → Blockers :=
  fun x y =>
    if x = ox ∧ y = oy then
      { structure_ := blocked x y |>.structure_,
        wall_n := blocked x y |>.wall_n, wall_w := 0 }
    else blocked x y

/-!  ###  Foundational lemmas  -/

/-- The lockstep invariant of the pruning-refinement proof: the pruned
sweep state and the reference state agree on blocked bits and output,
`prev_pri` tracks the current column `p`, and every bit in a column
buffer certifies that the whole-tile span of the corresponding table cell
is already fully blocked. -/
def sweep_invariant (p : ℕ) (st : SweepState) (rt : RefState) : Prop :=
  st.blocked_bits_1 = rt.blocked_bits_1 ∧
  st.blocked_bits_2 = rt.blocked_bits_2 ∧
  st.visible_tiles = rt.visible_tiles ∧
  st.prev_pri = p ∧
  (∀ s, st.curr_buffer.testBit s = true →
    s ≤ p ∧ (tileQBits p s).1 &&& st.blocked_bits_1 = (tileQBits p s).1 ∧
      (tileQBits p s).2 &&& st.blocked_bits_2 = (tileQBits p s).2) ∧
  (∀ s, st.prev_buffer.testBit s = true →
    2 ≤ p ∧ s + 1 ≤ p ∧
      (tileQBits (p - 1) s).1 &&& st.blocked_bits_1 = (tileQBits (p - 1) s).1 ∧
      (tileQBits (p - 1) s).2 &&& st.blocked_bits_2 = (tileQBits (p - 1) s).2)

/-- `Rat.floor` agrees with the floor of the ordered field `ℚ`. -/
theorem ratFloor_eq_floor (q : ℚ) : q.floor = ⌊q⌋ :=
  (Rat.floor_def' q).trans Rat.floor_def.symm

/-- `Rat.ceil` agrees with the ceiling of the ordered field `ℚ`. -/
theorem ratCeil_eq_ceil (q : ℚ) : q.ceil = ⌈q⌉ := by
  rw [Rat.ceil]
  split
  · next h =>
    have hq : ((q.num : ℚ)) = q := by
      conv_rhs => rw [← Rat.num_div_den q]
      rw [h]
      simp
    have hc : ⌈q⌉ = q.num := by
      rw [show ⌈q⌉ = ⌈((q.num : ℚ))⌉ by rw [hq]]
      exact Int.ceil_intCast _
    omega
  · next h =>
    have hfl : q.num / (q.den : ℤ) = ⌊q⌋ := Rat.floor_def.symm
    rw [hfl]
    have hne : ((⌊q⌋ : ℚ)) ≠ q := by
      intro he
      exact h (by rw [← he]; exact Rat.den_intCast _)
    have h1 : ⌈q⌉ ≤ ⌊q⌋ + 1 := by
      rw [Int.ceil_le]
      push_cast
      exact le_of_lt (Int.lt_floor_add_one q)
    have h2 : ⌊q⌋ + 1 ≤ ⌈q⌉ := by
      rw [Int.add_one_le_iff]
      have hlt : ((⌊q⌋ : ℚ)) < q := lt_of_le_of_ne (Int.floor_le q) hne
      have hcl : q ≤ ((⌈q⌉ : ℚ)) := Int.le_ceil q
      exact_mod_cast lt_of_lt_of_le hlt hcl
    omega

theorem foldl_or_pow_testBit (l : List ℕ) (a : ℕ) (i : ℕ) :
    (l.foldl (fun acc b => acc ||| 2 ^ b) a).testBit i =
      (a.testBit i || decide (i ∈ l)) := by
  induction l generalizing a with
  | nil => simp
  | cons x xs ih =>
    rw [List.foldl_cons, ih]
    rw [Nat.testBit_or, Nat.testBit_two_pow]
    simp [List.mem_cons, eq_comm, Bool.or_assoc]

/-- Bits of `or_pow_range lo len` are exactly the interval `[lo, lo+len)`. -/
theorem or_pow_range_testBit (lo len i : ℕ) :
    (or_pow_range lo len).testBit i =
      (decide (lo ≤ i) && decide (i < lo + len)) := by
  rw [or_pow_range, foldl_or_pow_testBit]
  simp [List.mem_range'_1]

/-- `is_visible` is false exactly when both visible words are contained in
the corresponding blocked words. -/
theorem is_visible_eq_false_iff (v1 v2 b1 b2 : ℕ) :
    is_visible v1 v2 b1 b2 = false ↔ v1 &&& b1 = v1 ∧ v2 &&& b2 = v2 := by
  have h1 : v1 &&& b1 ≤ v1 := Nat.and_le_left
  have h2 : v2 &&& b2 ≤ v2 := Nat.and_le_left
  simp only [is_visible, decide_eq_false_iff_not, not_or, not_lt]
  omega

/-- Containment of bit words as an equation on `&&&`. -/
theorem and_eq_left_iff_testBit (v b : ℕ) :
    v &&& b = v ↔ ∀ i, v.testBit i = true → b.testBit i = true := by
  constructor
  · intro h i hv
    have hb := congrArg (fun x => x.testBit i) h
    simp only [Nat.testBit_and] at hb
    rw [hv] at hb
    simpa using hb.symm
  · intro h
    apply Nat.eq_of_testBit_eq
    intro i
    rw [Nat.testBit_and]
    cases hv : v.testBit i with
    | false => simp
    | true => simp [h i hv]

/-- Bits of `quantized_slopes_256 lo hi`, through the two-word view:
exactly the integers in `[max ⌈lo*255⌉ 0, min ⌊hi*255⌋ 255]`. -/
theorem quantized_slopes_256_bit (lo hi : ℚ) (b : ℕ) :
    pairBit (quantized_slopes_256 lo hi) b = true ↔
      max ⌈lo * 255⌉ 0 ≤ (b : ℤ) ∧ (b : ℤ) ≤ min ⌊hi * 255⌋ 255 := by
  have hc : Rat.ceil (lo * 255) = ⌈lo * 255⌉ := ratCeil_eq_ceil _
  have hf : Rat.floor (hi * 255) = ⌊hi * 255⌋ := ratFloor_eq_floor _
  simp only [pairBit, quantized_slopes_256, hc, hf]
  by_cases hb : b < 128
  · simp only [hb, if_pos, if_true]
    rw [or_pow_range_testBit]
    simp only [Bool.and_eq_true, decide_eq_true_eq]
    omega
  · simp only [hb, if_false, if_neg]
    rw [or_pow_range_testBit]
    simp only [Bool.and_eq_true, decide_eq_true_eq]
    omega

/-- Both words produced by `quantized_slopes_256` fit in 128 bits. -/
theorem quantized_slopes_256_lt (lo hi : ℚ) :
    (quantized_slopes_256 lo hi).1 < 2 ^ 128 ∧
      (quantized_slopes_256 lo hi).2 < 2 ^ 128 := by
  constructor <;>
  · apply Nat.lt_pow_two_of_testBit
    intro i hi'
    simp only [quantized_slopes_256]
    rw [or_pow_range_testBit]
    simp only [Bool.and_eq_false_iff, decide_eq_false_iff_not, not_le, not_lt]
    omega

/-!  ###  C4 — quantization formula  -/

/-- Claim C4, counterexample: with the claimed resolution `BITS = 256`, the
occupied range for the interval `[0, 1/256]` would be
`[ceil(0·256), floor((1/256)·256)] = [0, 1]`, so bit 1 would be set; but
`quantized_slopes_256 0 (1/256)` leaves bit 1 clear (the code multiplies
by 255, not 256).  This refutes the claim as stated at the concrete input
`lo = 0, hi = 1/256`. -/
theorem c4_claim_false_at_input :
    (max ⌈(0 : ℚ) * 256⌉ 0 ≤ (1 : ℤ) ∧
        (1 : ℤ) ≤ min ⌊((1 : ℚ) / 256) * 256⌋ 256) ∧
      pairBit (quantized_slopes_256 0 ((1 : ℚ) / 256)) 1 = false := by
  refine ⟨⟨?_, ?_⟩, ?_⟩ <;> with_unfolding_all decide

/-- Claim C4, amended: for every interval `[lo, hi]` with
`0 ≤ lo` and `hi ≤ 1`, the two-word bitset returned by
`quantized_slopes_256` has set bits exactly the inclusive range
`[ceil(lo·255), floor(hi·255)]` (the multiplier is `BITS - 1 = 255` and
the clamp is to `[0, 255]`, which is implied by the hypotheses), with the
second 128-bit word holding bits 128‥255 shifted down by 128 (the
`pairBit` view), and an empty computed range (low index > high index)
yielding the empty set `(0, 0)`. -/
theorem quantized_slopes_256_spec (lo hi : ℚ) (h0 : 0 ≤ lo) (h1 : hi ≤ 1) :
    (∀ b : ℕ, pairBit (quantized_slopes_256 lo hi) b = true ↔
        ⌈lo * 255⌉ ≤ (b : ℤ) ∧ (b : ℤ) ≤ ⌊hi * 255⌋) ∧
      (⌊hi * 255⌋ < ⌈lo * 255⌉ → quantized_slopes_256 lo hi = (0, 0)) := by
  have hc0 : 0 ≤ ⌈lo * 255⌉ := Int.ceil_nonneg (by positivity)
  have hf2 : ⌊hi * 255⌋ ≤ 255 := by
    have h255 : hi * 255 ≤ 255 := by nlinarith
    calc ⌊hi * 255⌋ ≤ ⌊(255 : ℚ)⌋ := Int.floor_le_floor h255
    _ = 255 := by norm_num
  have hmax : max ⌈lo * 255⌉ 0 = ⌈lo * 255⌉ := max_eq_left hc0
  have hmin : min ⌊hi * 255⌋ 255 = ⌊hi * 255⌋ := min_eq_left hf2
  constructor
  · intro b
    rw [quantized_slopes_256_bit, hmax, hmin]
  · intro hlt
    have hb1 := (quantized_slopes_256_lt lo hi).1
    have hb2 := (quantized_slopes_256_lt lo hi).2
    have hz : ∀ b : ℕ, pairBit (quantized_slopes_256 lo hi) b = false := by
      intro b
      cases hp : pairBit (quantized_slopes_256 lo hi) b with
      | false => rfl
      | true =>
        exfalso
        have := (quantized_slopes_256_bit lo hi b).1 hp
        omega
    have hw1 : (quantized_slopes_256 lo hi).1 = 0 := by
      apply Nat.eq_of_testBit_eq
      intro i
      simp only [Nat.zero_testBit]
      by_cases hi' : i < 128
      · have := hz i
        simpa [pairBit, hi'] using this
      · exact Nat.testBit_eq_false_of_lt
          (lt_of_lt_of_le hb1 (Nat.pow_le_pow_right (by norm_num) (by omega)))
    have hw2 : (quantized_slopes_256 lo hi).2 = 0 := by
      apply Nat.eq_of_testBit_eq
      intro i
      simp only [Nat.zero_testBit]
      by_cases hi' : i < 128
      · have := hz (i + 128)
        simpa [pairBit, show ¬ (i + 128 < 128) by omega] using this
      · exact Nat.testBit_eq_false_of_lt
          (lt_of_lt_of_le hb2 (Nat.pow_le_pow_right (by norm_num) (by omega)))
    have hsplit : quantized_slopes_256 lo hi =
        ((quantized_slopes_256 lo hi).1, (quantized_slopes_256 lo hi).2) := rfl
    rw [hsplit, hw1, hw2]

/-- Claim C4, witness: the amended characterization instantiated at the
concrete interval `[1/4, 1/2]`. -/
theorem quantized_slopes_256_spec_witness :
    (∀ b : ℕ, pairBit (quantized_slopes_256 (1/4) (1/2)) b = true ↔
        ⌈(1/4 : ℚ) * 255⌉ ≤ (b : ℤ) ∧ (b : ℤ) ≤ ⌊(1/2 : ℚ) * 255⌋) ∧
      (⌊(1/2 : ℚ) * 255⌋ < ⌈(1/4 : ℚ) * 255⌉ →
        quantized_slopes_256 (1/4) (1/2) = (0, 0)) :=
  quantized_slopes_256_spec (1/4) (1/2) (by with_unfolding_all decide)
    (by with_unfolding_all decide)

/-!  ###  C9 — configuration validation  -/

/-- Claim C9, counterexample: constructing `Settings` with `radius = 1`
(below 2) on a positive 16×9 grid does not fail — it succeeds and stores
`radius = 1` unchanged, refuting the claim that a radius below 2 is
rejected at construction time. -/
theorem c9_claim_false_at_input :
    Settings.init 1280 720 ⟨16, 9⟩ 1 63 64 8 1 =
      .ok { width := 1280, height := 720, xdims := 16, ydims := 9,
            tile_size := 64, line_width := 1, subtiles_xy := 8,
            subtile_size := 8, max_radius := 63, radius := 1 } := by
  with_unfolding_all rfl

/-- Claim C9, amended: `Settings.__init__` rejects non-positive grid
dimensions with a descriptive `ValueError`; the radius is not validated —
any radius (including values below 2) is accepted and stored as
`min(radius, min(max_radius, 127))`, clamped only from above. -/
theorem settings_init_spec (width height : ℕ) (map_dims : Coords)
    (radius max_radius : ℤ) (tile_size subtiles_xy line_width : ℕ) :
    (map_dims.x < 1 ∨ map_dims.y < 1 →
      Settings.init width height map_dims radius max_radius tile_size
          subtiles_xy line_width =
        .error "all map dimensions must be > 0!") ∧
    (1 ≤ map_dims.x → 1 ≤ map_dims.y →
      Settings.init width height map_dims radius max_radius tile_size
          subtiles_xy line_width =
        .ok { width := width, height := height,
              xdims := map_dims.x, ydims := map_dims.y,
              tile_size := tile_size, line_width := line_width,
              subtiles_xy := subtiles_xy,
              subtile_size := tile_size / subtiles_xy,
              max_radius := min max_radius 127,
              radius := min radius (min max_radius 127) }) := by
  constructor
  · intro h
    simp only [Settings.init, if_pos h]
  · intro hx hy
    rw [Settings.init, if_neg (by omega)]

/-- Claim C9, witness: the amended behaviour at concrete inputs — a
zero-width grid is rejected, a 5×5 grid with radius 5 is accepted with
the clamped values stored. -/
theorem settings_init_spec_witness :
    Settings.init 1 1 ⟨0, 5⟩ 5 63 64 8 1 =
        .error "all map dimensions must be > 0!" ∧
      Settings.init 1 1 ⟨5, 5⟩ 5 63 64 8 1 =
        .ok { width := 1, height := 1, xdims := 5, ydims := 5,
              tile_size := 64, line_width := 1, subtiles_xy := 8,
              subtile_size := 64 / 8,
              max_radius := min 63 127,
              radius := min 5 (min 63 127) } :=
  ⟨(settings_init_spec 1 1 ⟨0, 5⟩ 5 63 64 8 1).1 (Or.inl (by decide)),
   (settings_init_spec 1 1 ⟨5, 5⟩ 5 63 64 8 1).2 (by decide) (by decide)⟩

/-!  ###  C8 — serialization round trip  -/

/-- Claim C8: for every `FovMaps` built by `FovMaps.new`, deserializing
its serialized form yields structurally equal data — per-tile and
per-octant `from_dict ∘ to_dict` are the identity, the full
`from_list ∘ to_list` round trip (the data handed to/from
`json.dumps`/`json.loads` by `to_json`/`from_json`) returns an equal
`FovMaps` — and `fov_calc` against any reloaded map returns a result
identical to `fov_calc` against the freshly built map, for every grid,
origin and radius. -/
theorem fovmaps_roundtrip (n : ℕ) :
    (∀ t : FovTile, FovTile.from_dict (FovTile.to_dict t) = t) ∧
    (∀ o : FovOctant, FovOctant.from_dict (FovOctant.to_dict o) = o) ∧
    FovMaps.from_list (FovMaps.to_list (FovMaps.new n)) = FovMaps.new n ∧
    (∀ (i ox oy radius : ℕ) (tm : TileMap),
      fov_calc ox oy tm
          ((FovMaps.from_list (FovMaps.to_list (FovMaps.new n))).maps.getD i
            (FovMap.new 0)) radius =
        fov_calc ox oy tm ((FovMaps.new n).maps.getD i (FovMap.new 0)) radius) := by
  have htile : ∀ t : FovTile, FovTile.from_dict (FovTile.to_dict t) = t :=
    fun t => rfl
  have hoct : ∀ o : FovOctant, FovOctant.from_dict (FovOctant.to_dict o) = o := by
    intro o
    simp [FovOctant.from_dict, FovOctant.to_dict, List.map_map, Function.comp_def,
      htile]
  have hmap : ∀ m : FovMap, FovMap.from_dict (FovMap.to_dict m) = m := by
    intro m
    simp [FovMap.from_dict, FovMap.to_dict, hoct]
  have hmaps : FovMaps.from_list (FovMaps.to_list (FovMaps.new n)) =
      FovMaps.new n := by
    simp [FovMaps.from_list, FovMaps.to_list, List.map_map, Function.comp_def, hmap]
  exact ⟨htile, hoct, hmaps, fun i ox oy radius tm => by rw [hmaps]⟩

/-!  ###  C5 — octant-5 check order  -/

/-- Claim C5: the octant-5 sweep is `runSweep` with the body `check_tnw`,
which tests Tile, then NORTH wall, then West wall — not
Tile → West → North as claimed (and as the source's own
`# Octant 5: check T -> W -> N` comment announces).  At the concrete
table cell `(dpri, dsec) = (2, 0)` of octant 5, with both walls present
and every blocked bit set except bit 51 (shared by the two wall spans),
the source order yields `visible_parts = 0b1011` (North visible, West
occluded) while the claimed order yields `0b1101` (West visible, North
occluded): the two orders are observably different and the code performs
North before West. -/
theorem octant5_check_order :
    (∀ (ox oy : ℤ) (origin : Tile) (max_dpri max_dsec : ℕ)
        (tm : TileMap) (fo : FovOctant),
      get_visible_tiles_5 ox oy origin max_dpri max_dsec tm fo =
        if origin.wall_w ≠ 0 then []
        else runSweep check_tnw ox oy max_dpri max_dsec tm fo .init) ∧
    (check_tnw ⟨0, 0, 0, 0, 1, 1⟩ (FovTile.new 2 0 .O5)
        (2 ^ 86 - 1 - 2 ^ 51) 0).2.2 = 11 ∧
    (check_twn_spec ⟨0, 0, 0, 0, 1, 1⟩ (FovTile.new 2 0 .O5)
        (2 ^ 86 - 1 - 2 ^ 51) 0).2.2 = 13 := by
  refine ⟨fun ox oy origin max_dpri max_dsec tm fo => rfl, ?_, ?_⟩ <;>
    with_unfolding_all decide

/-!  ###  C1 — scenario B (structure at (3,2))  -/

/-- Claim C1, counterexample: on the 5×5 grid with the sole blocker
`structure=true` at `(3, 2)`, origin `(2, 2)`, radius 3, the claim
"(4,2) not tile-visible while (4,1) and (4,3) are tile-visible" is false:
`fov_calc` reports (4,1) (and (4,3)) as NOT tile-visible — the adjacent
structure spans the full slope range `[0, 1]` of octants 1 and 8 and
occludes both. -/
theorem c1_claim_false_at_input :
    ¬ (tile_bit scenarioB_result (to_tile_id 4 2 5) = 0 ∧
       tile_bit scenarioB_result (to_tile_id 4 1 5) = 1 ∧
       tile_bit scenarioB_result (to_tile_id 4 3 5) = 1) := by
  with_unfolding_all decide

/-- Claim C1, amended: in scenario B the cell `(4, 2)` directly behind
the structure is not tile-visible, and the flanking cells `(4, 1)` and
`(4, 3)` are not tile-visible either. -/
theorem fov_calc_scenarioB :
    tile_bit scenarioB_result (to_tile_id 4 2 5) = 0 ∧
    tile_bit scenarioB_result (to_tile_id 4 1 5) = 0 ∧
    tile_bit scenarioB_result (to_tile_id 4 3 5) = 0 := by
  with_unfolding_all decide

/-!  ###  C7 — octant table construction  -/

@[simp] theorem FovTile.new_dpri (p s : ℕ) (o : Octant) :
    (FovTile.new p s o).dpri = p := by
  cases o <;> rfl

@[simp] theorem FovTile.new_dsec (p s : ℕ) (o : Octant) :
    (FovTile.new p s o).dsec = s := by
  cases o <;> rfl

theorem octant_column_pairs (r p : ℕ) (o : Octant) :
    (octant_column r p o).map (fun t => (t.dpri, t.dsec)) =
      ((List.range (p + 1)).filter (shaping_included r p)).map (fun s => (p, s)) := by
  simp [octant_column, List.map_map, Function.comp_def]

theorem mem_octant_column (r p : ℕ) (o : Octant) (t : FovTile) (h : t ∈ octant_column r p o) :
    t.dpri = p ∧ t.dsec ≤ p ∧ shaping_included r p t.dsec = true := by
  simp only [octant_column, List.mem_map, List.mem_filter, List.mem_range] at h
  obtain ⟨s, ⟨hs, hinc⟩, rfl⟩ := h
  refine ⟨FovTile.new_dpri p s o, ?_, ?_⟩
  · rw [FovTile.new_dsec]; omega
  · rw [FovTile.new_dsec]; exact hinc

/-- The three components of the `FovOctant.new` accumulation loop. -/
theorem fovOctant_loop_spec (r : ℕ) (o : Octant) (k : ℕ) :
    (FovOctant.loop r o k).1 =
        (List.range k).flatMap (fun i => octant_column r (i + 1) o) ∧
      (FovOctant.loop r o k).2.2 = (FovOctant.loop r o k).1.length ∧
      (FovOctant.loop r o k).2.1 = (List.range (k + 1)).map
        (fun d => ((List.range d).flatMap (fun i => octant_column r (i + 1) o)).length) := by
  induction k with
  | zero => exact ⟨rfl, rfl, rfl⟩
  | succ n ih =>
    obtain ⟨h1, h2, h3⟩ := ih
    refine ⟨?_, ?_, ?_⟩
    · rw [FovOctant.loop]
      dsimp only
      rw [h1, List.range_succ, List.flatMap_append]
      simp
    · rw [FovOctant.loop]
      dsimp only
      simp only [List.length_append]
      omega
    · rw [FovOctant.loop]
      dsimp only
      rw [h3, h2, h1, List.range_succ (n + 1), List.map_append]
      congr 1
      simp only [List.map_cons, List.map_nil]
      rw [List.range_succ n, List.flatMap_append, List.length_append]
      simp

theorem shaping_included_iff (r p s : ℕ) (hp : 1 ≤ p) :
    shaping_included r p s = true ↔
      ((p : ℚ) - 1/2) ^ 2 + ((s : ℚ) - 1/2) ^ 2 < (r : ℚ) ^ 2 := by
  simp only [shaping_included]
  rw [if_neg (by omega : ¬ p = 0)]
  rw [decide_eq_true_eq]
  constructor <;> intro h <;> nlinarith [h]

theorem fovOctant_tiles_eq (r : ℕ) (o : Octant) :
    (FovOctant.new r o).tiles =
      (List.range r).flatMap (fun i => octant_column r (i + 1) o) :=
  (fovOctant_loop_spec r o r).1

theorem fovOctant_mfi_eq (r : ℕ) (o : Octant) :
    (FovOctant.new r o).max_fov_ix = (List.range (r + 1)).map
      (fun d => ((List.range d).flatMap (fun i => octant_column r (i + 1) o)).length) :=
  (fovOctant_loop_spec r o r).2.2

theorem map_range_getD (f : ℕ → ℕ) (n i : ℕ) (h : i < n) :
    ((List.range n).map f).getD i 0 = f i := by
  rw [List.getD_eq_getElem?_getD, List.getElem?_map, List.getElem?_range h]
  rfl

theorem pairwise_flatMap_range (f : ℕ → List FovTile)
    (R : FovTile → FovTile → Prop) (k : ℕ)
    (hcol : ∀ i, (f i).Pairwise R)
    (hcross : ∀ i j, i < j → ∀ x ∈ f i, ∀ y ∈ f j, R x y) :
    ((List.range k).flatMap f).Pairwise R := by
  induction k with
  | zero => simp
  | succ n ih =>
    rw [List.range_succ, List.flatMap_append]
    rw [List.pairwise_append]
    refine ⟨ih, by simpa using hcol n, ?_⟩
    intro x hx y hy
    rw [List.mem_flatMap] at hx
    obtain ⟨i, hi, hxi⟩ := hx
    rw [List.mem_range] at hi
    simp only [List.flatMap_cons, List.flatMap_nil, List.append_nil] at hy
    exact hcross i n hi x hxi y hy

/-- Claim C7: for every radius and octant, `FovOctant.new` produces
(a) exactly one table cell per pair `(dpri, dsec)` with `1 ≤ dpri ≤ r`,
`0 ≤ dsec ≤ dpri` passing the circular-shaping test
`(dpri-0.5)² + (dsec-0.5)² < r²` (no duplicated pair, membership exactly
under those conditions); (b) the cells in ascending `dpri`, then
ascending `dsec`; (c) `max_fov_ix` of length `r+1` such that for every
`d ≤ r`, `tiles[:max_fov_ix[d]]` is exactly the sublist of entries with
`dpri ≤ d`. -/
theorem fovOctant_new_spec (r : ℕ) (o : Octant) :
    (((FovOctant.new r o).tiles.map fun t => (t.dpri, t.dsec)).Nodup ∧
      ∀ p s : ℕ, ((p, s) ∈ (FovOctant.new r o).tiles.map fun t => (t.dpri, t.dsec)) ↔
        1 ≤ p ∧ p ≤ r ∧ s ≤ p ∧
          ((p : ℚ) - 1/2) ^ 2 + ((s : ℚ) - 1/2) ^ 2 < (r : ℚ) ^ 2) ∧
    (FovOctant.new r o).tiles.Pairwise
      (fun t1 t2 => t1.dpri < t2.dpri ∨ (t1.dpri = t2.dpri ∧ t1.dsec < t2.dsec)) ∧
    ((FovOctant.new r o).max_fov_ix.length = r + 1 ∧
      ∀ d : ℕ, d ≤ r →
        (FovOctant.new r o).tiles.take ((FovOctant.new r o).max_fov_ix.getD d 0) =
          (FovOctant.new r o).tiles.filter fun t => t.dpri ≤ d) := by
  have hpair : (FovOctant.new r o).tiles.Pairwise
      (fun t1 t2 => t1.dpri < t2.dpri ∨ (t1.dpri = t2.dpri ∧ t1.dsec < t2.dsec)) := by
    rw [fovOctant_tiles_eq]
    apply pairwise_flatMap_range
    · intro i
      rw [octant_column, List.pairwise_map]
      apply List.Pairwise.filter
      apply (List.pairwise_lt_range _).imp
      intro a b hab
      right
      simp only [FovTile.new_dpri, FovTile.new_dsec]
      exact ⟨trivial, hab⟩
    · intro i j hij x hx y hy
      left
      rw [(mem_octant_column r (i + 1) o x hx).1, (mem_octant_column r (j + 1) o y hy).1]
      omega
  refine ⟨⟨?_, ?_⟩, hpair, ?_, ?_⟩
  · -- Nodup of the (dpri, dsec) pairs
    have hlexpairs : ((FovOctant.new r o).tiles.map fun t => (t.dpri, t.dsec)).Pairwise
        (fun a b : ℕ × ℕ => a.1 < b.1 ∨ (a.1 = b.1 ∧ a.2 < b.2)) := by
      rw [List.pairwise_map]
      exact hpair
    refine hlexpairs.imp ?_
    intro a b h he
    rcases h with h | ⟨h1, h2⟩
    · rw [he] at h; omega
    · rw [he] at h2; omega
  · -- membership characterization
    intro p s
    rw [fovOctant_tiles_eq]
    constructor
    · intro h
      rw [List.mem_map] at h
      obtain ⟨t, ht, hts⟩ := h
      rw [List.mem_flatMap] at ht
      obtain ⟨i, hi, hti⟩ := ht
      rw [List.mem_range] at hi
      obtain ⟨hdp, hds, hinc⟩ := mem_octant_column r (i + 1) o t hti
      rw [Prod.mk.injEq] at hts
      obtain ⟨hp, hs⟩ := hts
      rw [hp] at hdp
      rw [hs] at hds hinc
      subst hdp
      rw [shaping_included_iff r (i + 1) s (by omega)] at hinc
      exact ⟨by omega, by omega, hds, hinc⟩
    · rintro ⟨hp1, hpr, hsp, hq⟩
      rw [List.mem_map]
      refine ⟨FovTile.new p s o, ?_, by simp⟩
      rw [List.mem_flatMap]
      refine ⟨p - 1, by rw [List.mem_range]; omega, ?_⟩
      have hp : p - 1 + 1 = p := by omega
      rw [hp, octant_column, List.mem_map]
      refine ⟨s, ?_, rfl⟩
      rw [List.mem_filter, List.mem_range]
      exact ⟨by omega, (shaping_included_iff r p s hp1).2 hq⟩
  · -- max_fov_ix length
    rw [fovOctant_mfi_eq]
    simp
  · -- take/filter slicing
    intro d hd
    rw [fovOctant_mfi_eq, map_range_getD _ _ _ (by omega), fovOctant_tiles_eq]
    have hsplit : List.range r = List.range d ++ (List.range (r - d)).map (d + ·) := by
      rw [← List.range_add]
      congr 1
      omega
    rw [hsplit, List.flatMap_append]
    rw [List.take_left]
    rw [List.filter_append]
    have hA : ((List.range d).flatMap fun i => octant_column r (i + 1) o).filter
        (fun t => t.dpri ≤ d) =
        (List.range d).flatMap fun i => octant_column r (i + 1) o := by
      rw [List.filter_eq_self]
      intro t ht
      rw [List.mem_flatMap] at ht
      obtain ⟨i, hi, hti⟩ := ht
      rw [List.mem_range] at hi
      rw [decide_eq_true_eq, (mem_octant_column r (i + 1) o t hti).1]
      omega
    have hB : (((List.range (r - d)).map (d + ·)).flatMap
        fun i => octant_column r (i + 1) o).filter (fun t => t.dpri ≤ d) = [] := by
      rw [List.filter_eq_nil_iff]
      intro t ht
      rw [List.mem_flatMap] at ht
      obtain ⟨i, hi, hti⟩ := ht
      rw [List.mem_map] at hi
      obtain ⟨j, hj, rfl⟩ := hi
      rw [decide_eq_true_eq, (mem_octant_column r (d + j + 1) o t hti).1]
      omega
    rw [hA, hB, List.append_nil]

/-!  ###  C10 — lookup safety  -/

@[simp] theorem FovTile.new_rx (p s : ℕ) (o : Octant) :
    (FovTile.new p s o).rx = (pri_sec_to_relative p s o).1 := rfl

@[simp] theorem FovTile.new_ry (p s : ℕ) (o : Octant) :
    (FovTile.new p s o).ry = (pri_sec_to_relative p s o).2 := rfl

/-- Every cell of the table slice `tiles[:max_fov_ix[maxd]]` is
`FovTile.new p s o` for some `1 ≤ p ≤ maxd`, `s ≤ p`. -/
theorem mem_sliced_prefix (R maxd : ℕ) (o : Octant) (hmd : maxd ≤ R) (t : FovTile)
    (ht : t ∈ (FovOctant.new R o).tiles.take
      ((FovOctant.new R o).max_fov_ix.getD maxd 0)) :
    ∃ p s : ℕ, 1 ≤ p ∧ p ≤ maxd ∧ s ≤ p ∧ t = FovTile.new p s o := by
  rw [(fovOctant_new_spec R o).2.2.2 maxd hmd] at ht
  rw [List.mem_filter] at ht
  obtain ⟨htl, hd⟩ := ht
  rw [decide_eq_true_eq] at hd
  rw [fovOctant_tiles_eq] at htl
  rw [List.mem_flatMap] at htl
  obtain ⟨i, hi, hti⟩ := htl
  rw [List.mem_range] at hi
  rw [octant_column, List.mem_map] at hti
  obtain ⟨s, hs, rfl⟩ := hti
  rw [List.mem_filter, List.mem_range] at hs
  refine ⟨i + 1, s, by omega, ?_, by omega, rfl⟩
  rw [FovTile.new_dpri] at hd
  omega

theorem tid_bounds (tx ty xd yd : ℤ) (h1 : 0 ≤ tx) (h2 : tx < xd)
    (h3 : 0 ≤ ty) (h4 : ty < yd) :
    0 ≤ tx + ty * xd ∧ tx + ty * xd < xd * yd := by
  constructor
  · nlinarith
  · nlinarith

theorem inb_all (tx ty xd yd : ℤ) (h1 : 0 ≤ tx) (h2 : tx < xd)
    (h3 : 0 ≤ ty) (h4 : ty < yd) :
    0 ≤ tx ∧ tx < xd ∧ 0 ≤ ty ∧ ty < yd ∧
      0 ≤ tx + ty * xd ∧ tx + ty * xd < xd * yd :=
  ⟨h1, h2, h3, h4, (tid_bounds tx ty xd yd h1 h2 h3 h4).1,
    (tid_bounds tx ty xd yd h1 h2 h3 h4).2⟩

/-- Claim C10: for every in-bounds origin and every radius not exceeding
the build radius `R`, each table entry processed by an octant sweep as
invoked by `fov_calc` (within the per-octant `max_fov_ix` slice and the
`dsec` boundary) has lookup coordinates `(ox + rx, oy + ry)` inside the
grid, and its tile index `(ox+rx) + (oy+ry)·xdims` inside `[0, xdims·ydims)`
— so no `tile_at` lookup indexes outside `tiles` or wraps negatively. -/
theorem fov_calc_lookups_in_bounds (xdims ydims ox oy R radius : ℕ)
    (hox : ox < xdims) (hoy : oy < ydims) (hrad : radius ≤ R) :
    (∀ t ∈ (FovOctant.new R .O1).tiles.take
        ((FovOctant.new R .O1).max_fov_ix.getD (boundary_radii ox oy xdims ydims .O1 radius).1 0),
      t.dsec ≤ (boundary_radii ox oy xdims ydims .O1 radius).2 →
        0 ≤ (ox : ℤ) + t.rx ∧ (ox : ℤ) + t.rx < (xdims : ℤ) ∧
        0 ≤ (oy : ℤ) + t.ry ∧ (oy : ℤ) + t.ry < (ydims : ℤ) ∧
        0 ≤ ((ox : ℤ) + t.rx) + ((oy : ℤ) + t.ry) * (xdims : ℤ) ∧
          ((ox : ℤ) + t.rx) + ((oy : ℤ) + t.ry) * (xdims : ℤ) <
            (xdims : ℤ) * (ydims : ℤ)) ∧
    (∀ t ∈ (FovOctant.new R .O2).tiles.take
        ((FovOctant.new R .O2).max_fov_ix.getD (boundary_radii ox oy xdims ydims .O1 radius).2 0),
      t.dsec ≤ (boundary_radii ox oy xdims ydims .O1 radius).1 →
        0 ≤ (ox : ℤ) + t.rx ∧ (ox : ℤ) + t.rx < (xdims : ℤ) ∧
        0 ≤ (oy : ℤ) + t.ry ∧ (oy : ℤ) + t.ry < (ydims : ℤ) ∧
        0 ≤ ((ox : ℤ) + t.rx) + ((oy : ℤ) + t.ry) * (xdims : ℤ) ∧
          ((ox : ℤ) + t.rx) + ((oy : ℤ) + t.ry) * (xdims : ℤ) <
            (xdims : ℤ) * (ydims : ℤ)) ∧
    (∀ t ∈ (FovOctant.new R .O3).tiles.take
        ((FovOctant.new R .O3).max_fov_ix.getD (boundary_radii ox oy xdims ydims .O4 radius).2 0),
      t.dsec ≤ (boundary_radii ox oy xdims ydims .O4 radius).1 →
        0 ≤ (ox : ℤ) + t.rx ∧ (ox : ℤ) + t.rx < (xdims : ℤ) ∧
        0 ≤ (oy : ℤ) + t.ry ∧ (oy : ℤ) + t.ry < (ydims : ℤ) ∧
        0 ≤ ((ox : ℤ) + t.rx) + ((oy : ℤ) + t.ry) * (xdims : ℤ) ∧
          ((ox : ℤ) + t.rx) + ((oy : ℤ) + t.ry) * (xdims : ℤ) <
            (xdims : ℤ) * (ydims : ℤ)) ∧
    (∀ t ∈ (FovOctant.new R .O4).tiles.take
        ((FovOctant.new R .O4).max_fov_ix.getD (boundary_radii ox oy xdims ydims .O4 radius).1 0),
      t.dsec ≤ (boundary_radii ox oy xdims ydims .O4 radius).2 →
        0 ≤ (ox : ℤ) + t.rx ∧ (ox : ℤ) + t.rx < (xdims : ℤ) ∧
        0 ≤ (oy : ℤ) + t.ry ∧ (oy : ℤ) + t.ry < (ydims : ℤ) ∧
        0 ≤ ((ox : ℤ) + t.rx) + ((oy : ℤ) + t.ry) * (xdims : ℤ) ∧
          ((ox : ℤ) + t.rx) + ((oy : ℤ) + t.ry) * (xdims : ℤ) <
            (xdims : ℤ) * (ydims : ℤ)) ∧
    (∀ t ∈ (FovOctant.new R .O5).tiles.take
        ((FovOctant.new R .O5).max_fov_ix.getD (boundary_radii ox oy xdims ydims .O5 radius).1 0),
      t.dsec ≤ (boundary_radii ox oy xdims ydims .O5 radius).2 →
        0 ≤ (ox : ℤ) + t.rx ∧ (ox : ℤ) + t.rx < (xdims : ℤ) ∧
        0 ≤ (oy : ℤ) + t.ry ∧ (oy : ℤ) + t.ry < (ydims : ℤ) ∧
        0 ≤ ((ox : ℤ) + t.rx) + ((oy : ℤ) + t.ry) * (xdims : ℤ) ∧
          ((ox : ℤ) + t.rx) + ((oy : ℤ) + t.ry) * (xdims : ℤ) <
            (xdims : ℤ) * (ydims : ℤ)) ∧
    (∀ t ∈ (FovOctant.new R .O6).tiles.take
        ((FovOctant.new R .O6).max_fov_ix.getD (boundary_radii ox oy xdims ydims .O5 radius).2 0),
      t.dsec ≤ (boundary_radii ox oy xdims ydims .O5 radius).1 →
        0 ≤ (ox : ℤ) + t.rx ∧ (ox : ℤ) + t.rx < (xdims : ℤ) ∧
        0 ≤ (oy : ℤ) + t.ry ∧ (oy : ℤ) + t.ry < (ydims : ℤ) ∧
        0 ≤ ((ox : ℤ) + t.rx) + ((oy : ℤ) + t.ry) * (xdims : ℤ) ∧
          ((ox : ℤ) + t.rx) + ((oy : ℤ) + t.ry) * (xdims : ℤ) <
            (xdims : ℤ) * (ydims : ℤ)) ∧
    (∀ t ∈ (FovOctant.new R .O7).tiles.take
        ((FovOctant.new R .O7).max_fov_ix.getD (boundary_radii ox oy xdims ydims .O8 radius).2 0),
      t.dsec ≤ (boundary_radii ox oy xdims ydims .O8 radius).1 →
        0 ≤ (ox : ℤ) + t.rx ∧ (ox : ℤ) + t.rx < (xdims : ℤ) ∧
        0 ≤ (oy : ℤ) + t.ry ∧ (oy : ℤ) + t.ry < (ydims : ℤ) ∧
        0 ≤ ((ox : ℤ) + t.rx) + ((oy : ℤ) + t.ry) * (xdims : ℤ) ∧
          ((ox : ℤ) + t.rx) + ((oy : ℤ) + t.ry) * (xdims : ℤ) <
            (xdims : ℤ) * (ydims : ℤ)) ∧
    (∀ t ∈ (FovOctant.new R .O8).tiles.take
        ((FovOctant.new R .O8).max_fov_ix.getD (boundary_radii ox oy xdims ydims .O8 radius).1 0),
      t.dsec ≤ (boundary_radii ox oy xdims ydims .O8 radius).2 →
        0 ≤ (ox : ℤ) + t.rx ∧ (ox : ℤ) + t.rx < (xdims : ℤ) ∧
        0 ≤ (oy : ℤ) + t.ry ∧ (oy : ℤ) + t.ry < (ydims : ℤ) ∧
        0 ≤ ((ox : ℤ) + t.rx) + ((oy : ℤ) + t.ry) * (xdims : ℤ) ∧
          ((ox : ℤ) + t.rx) + ((oy : ℤ) + t.ry) * (xdims : ℤ) <
            (xdims : ℤ) * (ydims : ℤ)) := by
  refine ⟨?_, ?_, ?_, ?_, ?_, ?_, ?_, ?_⟩ <;>
  · intro t ht hts
    obtain ⟨p, s, hp1, hpd, hsp, rfl⟩ :=
      mem_sliced_prefix R _ _ (by simp only [boundary_radii]; omega) t ht
    rw [FovTile.new_dsec] at hts
    simp only [boundary_radii] at hpd hts
    exact inb_all _ _ _ _
      (by simp only [FovTile.new_rx, pri_sec_to_relative]; push_cast; omega)
      (by simp only [FovTile.new_rx, pri_sec_to_relative]; push_cast; omega)
      (by simp only [FovTile.new_ry, pri_sec_to_relative]; push_cast; omega)
      (by simp only [FovTile.new_ry, pri_sec_to_relative]; push_cast; omega)

/-- Claim C10, witness: the octant-1 bound at the concrete query
(5×5 grid, origin (2,2), build radius 3, query radius 3) evaluated at the
first table cell. -/
theorem fov_calc_lookups_in_bounds_witness :
    0 ≤ (2 : ℤ) + (FovTile.new 1 0 .O1).rx ∧
    (2 : ℤ) + (FovTile.new 1 0 .O1).rx < ((5 : ℕ) : ℤ) ∧
    0 ≤ (2 : ℤ) + (FovTile.new 1 0 .O1).ry ∧
    (2 : ℤ) + (FovTile.new 1 0 .O1).ry < ((5 : ℕ) : ℤ) ∧
    0 ≤ ((2 : ℤ) + (FovTile.new 1 0 .O1).rx) +
        ((2 : ℤ) + (FovTile.new 1 0 .O1).ry) * ((5 : ℕ) : ℤ) ∧
      ((2 : ℤ) + (FovTile.new 1 0 .O1).rx) +
        ((2 : ℤ) + (FovTile.new 1 0 .O1).ry) * ((5 : ℕ) : ℤ) <
        ((5 : ℕ) : ℤ) * ((5 : ℕ) : ℤ) :=
  (fov_calc_lookups_in_bounds 5 5 2 2 3 3 (by decide) (by decide) (by decide)).1
    (FovTile.new 1 0 .O1)
    (by
      rw [(fovOctant_new_spec 3 .O1).2.2.2 (boundary_radii 2 2 5 5 .O1 3).1
        (by with_unfolding_all decide)]
      rw [List.mem_filter]
      constructor
      · rw [fovOctant_tiles_eq, List.mem_flatMap]
        refine ⟨0, by with_unfolding_all decide, ?_⟩
        rw [octant_column, List.mem_map]
        refine ⟨0, ?_, rfl⟩
        rw [List.mem_filter, List.mem_range]
        exact ⟨by with_unfolding_all decide, by with_unfolding_all decide⟩
      · rw [FovTile.new_dpri]
        with_unfolding_all decide)
    (by rw [FovTile.new_dsec]; with_unfolding_all decide)

/-!  ###  C6 — origin West wall  -/

/-- Indexing a row-major grid list at `x + y*xdims` yields the `(x, y)`
entry. -/
theorem grid_getElem (g : ℕ → ℕ → Tile) (xdims ydims x y : ℕ)
    (hx : x < xdims) (hy : y < ydims) :
    ((List.range ydims).flatMap
      (fun yy => (List.range xdims).map (fun xx => g yy xx)))[x + y * xdims]? =
      some (g y x) := by
  induction ydims generalizing y with
  | zero => omega
  | succ n ih =>
    rw [List.range_succ, List.flatMap_append]
    by_cases hyn : y < n
    · rw [List.getElem?_append_left]
      · exact ih y hyn
      · -- x + y * xdims < length of the first n rows = n * xdims
        rw [List.length_flatMap]
        have hmap : (List.range n).map
            (List.length ∘ fun yy => (List.range xdims).map (fun xx => g yy xx)) =
            List.replicate n xdims := by
          rw [List.eq_replicate_iff]
          constructor
          · simp
          · intro b hb
            rw [List.mem_map] at hb
            obtain ⟨i, _, rfl⟩ := hb
            simp
        rw [hmap, List.sum_replicate, smul_eq_mul]
        nlinarith
    · have hyeq : y = n := by omega
      subst hyeq
      rw [List.getElem?_append_right]
      · have hlen : ((List.range y).flatMap
            (fun yy => (List.range xdims).map (fun xx => g yy xx))).length =
            y * xdims := by
          rw [List.length_flatMap]
          have hmap : (List.range y).map
              (List.length ∘ fun yy => (List.range xdims).map (fun xx => g yy xx)) =
              List.replicate y xdims := by
            rw [List.eq_replicate_iff]
            refine ⟨by simp, ?_⟩
            intro b hb
            rw [List.mem_map] at hb
            obtain ⟨i, _, rfl⟩ := hb
            simp
          rw [hmap, List.sum_replicate, smul_eq_mul]
        rw [hlen]
        have hsub : x + y * xdims - y * xdims = x := by omega
        rw [hsub]
        simp only [List.flatMap_cons, List.flatMap_nil, List.append_nil]
        rw [List.getElem?_map, List.getElem?_range hx]
        rfl
      · rw [List.length_flatMap]
        have hmap : (List.range y).map
            (List.length ∘ fun yy => (List.range xdims).map (fun xx => g yy xx)) =
            List.replicate y xdims := by
          rw [List.eq_replicate_iff]
          refine ⟨by simp, ?_⟩
          intro b hb
          rw [List.mem_map] at hb
          obtain ⟨i, _, rfl⟩ := hb
          simp
        rw [hmap, List.sum_replicate, smul_eq_mul]
        omega

/-- `tile_at` on a constructed `TileMap`, at in-bounds integer
coordinates. -/
theorem tile_at_new (blocked : ℕ → ℕ → Blockers) (xdims ydims : ℕ) (x y : ℤ)
    (hx0 : 0 ≤ x) (hx : x < (xdims : ℤ)) (hy0 : 0 ≤ y) (hy : y < (ydims : ℤ)) :
    (TileMap.new blocked xdims ydims).tile_at x y =
      { tid := to_tile_id x.toNat y.toNat xdims, x := x.toNat, y := y.toNat,
        structure_ := (blocked x.toNat y.toNat).structure_,
        wall_n := (blocked x.toNat y.toNat).wall_n,
        wall_w := (blocked x.toNat y.toNat).wall_w } := by
  obtain ⟨a, rfl⟩ : ∃ a : ℕ, x = (a : ℤ) := ⟨x.toNat, (Int.toNat_of_nonneg hx0).symm⟩
  obtain ⟨b, rfl⟩ : ∃ b : ℕ, y = (b : ℤ) := ⟨y.toNat, (Int.toNat_of_nonneg hy0).symm⟩
  have ha : a < xdims := by exact_mod_cast hx
  have hb : b < ydims := by exact_mod_cast hy
  rw [TileMap.tile_at, pyIndex, if_pos (by positivity)]
  have hidx : ((a : ℤ) + (b : ℤ) * ((TileMap.new blocked xdims ydims).xdims : ℤ)).toNat
      = a + b * xdims := by
    rw [show (TileMap.new blocked xdims ydims).xdims = xdims from rfl]
    rw [show (a : ℤ) + (b : ℤ) * (xdims : ℤ) = ((a + b * xdims : ℕ) : ℤ) by push_cast; ring]
    exact Int.toNat_natCast _
  rw [hidx]
  rw [List.getD_eq_getElem?_getD]
  rw [show (TileMap.new blocked xdims ydims).tiles =
    (List.range ydims).flatMap (fun yy => (List.range xdims).map (fun xx =>
      { tid := to_tile_id xx yy xdims, x := xx, y := yy,
        structure_ := (blocked xx yy).structure_,
        wall_n := (blocked xx yy).wall_n,
        wall_w := (blocked xx yy).wall_w })) from rfl]
  rw [grid_getElem _ xdims ydims a b ha hb]
  simp

/-- The sweep loop depends on the tilemap only through the lookups of the
processed entries. -/
theorem sweep_congr (body : OctantBody) (ox oy : ℤ) (maxs : ℕ)
    (tm tm' : TileMap) (l : List FovTile) (st : SweepState)
    (hag : ∀ ft ∈ l, ft.dsec ≤ maxs →
      tm.tile_at (ox + ft.rx) (oy + ft.ry) = tm'.tile_at (ox + ft.rx) (oy + ft.ry)) :
    l.foldl (sweepStep body ox oy tm maxs) st =
      l.foldl (sweepStep body ox oy tm' maxs) st := by
  induction l generalizing st with
  | nil => rfl
  | cons ft l ih =>
    rw [List.foldl_cons, List.foldl_cons]
    have hstep : sweepStep body ox oy tm maxs st ft =
        sweepStep body ox oy tm' maxs st ft := by
      rw [sweepStep, sweepStep]
      by_cases hd : ft.dsec > maxs
      · rw [if_pos hd, if_pos hd]
      · rw [if_neg hd, if_neg hd, hag ft (List.mem_cons_self ft l) (by omega)]
    rw [hstep]
    exact ih _ (fun f hf hds => hag f (List.mem_cons_of_mem _ hf) hds)

/-- Lookups away from the origin do not see the origin's West wall being
cleared. -/
theorem tile_at_clear_west_agree (blocked : ℕ → ℕ → Blockers)
    (xdims ydims ox oy : ℕ) (x y : ℤ)
    (hx0 : 0 ≤ x) (hx : x < (xdims : ℤ)) (hy0 : 0 ≤ y) (hy : y < (ydims : ℤ))
    (hne : x ≠ (ox : ℤ) ∨ y ≠ (oy : ℤ)) :
    (TileMap.new blocked xdims ydims).tile_at x y =
      (TileMap.new (clear_west_wall blocked ox oy) xdims ydims).tile_at x y := by
  rw [tile_at_new blocked xdims ydims x y hx0 hx hy0 hy,
    tile_at_new (clear_west_wall blocked ox oy) xdims ydims x y hx0 hx hy0 hy]
  have hcw : clear_west_wall blocked ox oy x.toNat y.toNat = blocked x.toNat y.toNat := by
    simp only [clear_west_wall]
    rw [if_neg]
    rintro ⟨h1, h2⟩
    rcases hne with h | h <;> omega
  rw [hcw]

/-- Claim C6: if the origin tile has a West wall, the octant-4 and
octant-5 sweeps (as invoked by `fov_calc`) return no visible cells at
all, while the sweeps of octants 1, 2, 7 and 8 return exactly what they
return on the same grid with the origin's West wall cleared. -/
theorem origin_west_wall_octants (blocked : ℕ → ℕ → Blockers)
    (xdims ydims ox oy R radius : ℕ)
    (hox : ox < xdims) (hoy : oy < ydims) (hrad : radius ≤ R)
    (hww : (blocked ox oy).wall_w ≠ 0) :
    get_visible_tiles_4 ox oy
        ((TileMap.new blocked xdims ydims).tile_at ox oy)
        (boundary_radii ox oy xdims ydims .O4 radius).1
        (boundary_radii ox oy xdims ydims .O4 radius).2
        (TileMap.new blocked xdims ydims) (FovOctant.new R .O4) = [] ∧
    get_visible_tiles_5 ox oy
        ((TileMap.new blocked xdims ydims).tile_at ox oy)
        (boundary_radii ox oy xdims ydims .O5 radius).1
        (boundary_radii ox oy xdims ydims .O5 radius).2
        (TileMap.new blocked xdims ydims) (FovOctant.new R .O5) = [] ∧
    get_visible_tiles_1 ox oy
        (boundary_radii ox oy xdims ydims .O1 radius).1
        (boundary_radii ox oy xdims ydims .O1 radius).2
        (TileMap.new blocked xdims ydims) (FovOctant.new R .O1) =
      get_visible_tiles_1 ox oy
        (boundary_radii ox oy xdims ydims .O1 radius).1
        (boundary_radii ox oy xdims ydims .O1 radius).2
        (TileMap.new (clear_west_wall blocked ox oy) xdims ydims)
        (FovOctant.new R .O1) ∧
    get_visible_tiles_2 ox oy
        (boundary_radii ox oy xdims ydims .O1 radius).2
        (boundary_radii ox oy xdims ydims .O1 radius).1
        (TileMap.new blocked xdims ydims) (FovOctant.new R .O2) =
      get_visible_tiles_2 ox oy
        (boundary_radii ox oy xdims ydims .O1 radius).2
        (boundary_radii ox oy xdims ydims .O1 radius).1
        (TileMap.new (clear_west_wall blocked ox oy) xdims ydims)
        (FovOctant.new R .O2) ∧
    get_visible_tiles_7 ox oy
        ((TileMap.new blocked xdims ydims).tile_at ox oy)
        (boundary_radii ox oy xdims ydims .O8 radius).2
        (boundary_radii ox oy xdims ydims .O8 radius).1
        (TileMap.new blocked xdims ydims) (FovOctant.new R .O7) =
      get_visible_tiles_7 ox oy
        ((TileMap.new (clear_west_wall blocked ox oy) xdims ydims).tile_at ox oy)
        (boundary_radii ox oy xdims ydims .O8 radius).2
        (boundary_radii ox oy xdims ydims .O8 radius).1
        (TileMap.new (clear_west_wall blocked ox oy) xdims ydims)
        (FovOctant.new R .O7) ∧
    get_visible_tiles_8 ox oy
        (boundary_radii ox oy xdims ydims .O8 radius).1
        (boundary_radii ox oy xdims ydims .O8 radius).2
        (TileMap.new blocked xdims ydims) (FovOctant.new R .O8) =
      get_visible_tiles_8 ox oy
        (boundary_radii ox oy xdims ydims .O8 radius).1
        (boundary_radii ox oy xdims ydims .O8 radius).2
        (TileMap.new (clear_west_wall blocked ox oy) xdims ydims)
        (FovOctant.new R .O8) := by
  have horig : (TileMap.new blocked xdims ydims).tile_at ox oy =
      { tid := to_tile_id ((ox : ℤ)).toNat ((oy : ℤ)).toNat xdims,
        x := ((ox : ℤ)).toNat, y := ((oy : ℤ)).toNat,
        structure_ := (blocked ((ox : ℤ)).toNat ((oy : ℤ)).toNat).structure_,
        wall_n := (blocked ((ox : ℤ)).toNat ((oy : ℤ)).toNat).wall_n,
        wall_w := (blocked ((ox : ℤ)).toNat ((oy : ℤ)).toNat).wall_w } :=
    tile_at_new blocked xdims ydims ox oy (by positivity)
      (by exact_mod_cast hox) (by positivity) (by exact_mod_cast hoy)
  have horig' : (TileMap.new (clear_west_wall blocked ox oy) xdims ydims).tile_at ox oy =
      { tid := to_tile_id ((ox : ℤ)).toNat ((oy : ℤ)).toNat xdims,
        x := ((ox : ℤ)).toNat, y := ((oy : ℤ)).toNat,
        structure_ := (clear_west_wall blocked ox oy ((ox : ℤ)).toNat ((oy : ℤ)).toNat).structure_,
        wall_n := (clear_west_wall blocked ox oy ((ox : ℤ)).toNat ((oy : ℤ)).toNat).wall_n,
        wall_w := (clear_west_wall blocked ox oy ((ox : ℤ)).toNat ((oy : ℤ)).toNat).wall_w } :=
    tile_at_new (clear_west_wall blocked ox oy) xdims ydims ox oy (by positivity)
      (by exact_mod_cast hox) (by positivity) (by exact_mod_cast hoy)
  have htn : ((ox : ℤ)).toNat = ox := Int.toNat_natCast ox
  have htn' : ((oy : ℤ)).toNat = oy := Int.toNat_natCast oy
  rw [htn, htn'] at horig horig'
  refine ⟨?_, ?_, ?_, ?_, ?_, ?_⟩
  · rw [get_visible_tiles_4, horig, if_pos hww]
  · rw [get_visible_tiles_5, horig, if_pos hww]
  · rw [get_visible_tiles_1, get_visible_tiles_1, runSweep, runSweep]
    refine congrArg SweepState.visible_tiles (sweep_congr _ _ _ _ _ _ _ _ ?_)
    intro t ht hts
    obtain ⟨p, s, hp1, hpd, hsp, rfl⟩ :=
      mem_sliced_prefix R _ .O1 (by simp only [boundary_radii]; omega) t ht
    rw [FovTile.new_dsec] at hts
    simp only [boundary_radii] at hpd hts
    simp only [FovTile.new_rx, FovTile.new_ry, pri_sec_to_relative]
    apply tile_at_clear_west_agree <;> push_cast <;> omega
  · rw [get_visible_tiles_2, get_visible_tiles_2, runSweep, runSweep]
    refine congrArg SweepState.visible_tiles (sweep_congr _ _ _ _ _ _ _ _ ?_)
    intro t ht hts
    obtain ⟨p, s, hp1, hpd, hsp, rfl⟩ :=
      mem_sliced_prefix R _ .O2 (by simp only [boundary_radii]; omega) t ht
    rw [FovTile.new_dsec] at hts
    simp only [boundary_radii] at hpd hts
    simp only [FovTile.new_rx, FovTile.new_ry, pri_sec_to_relative]
    apply tile_at_clear_west_agree <;> push_cast <;> omega
  · rw [get_visible_tiles_7, get_visible_tiles_7, horig, horig']
    have hcwo : clear_west_wall blocked ox oy ox oy =
        { structure_ := (blocked ox oy).structure_,
          wall_n := (blocked ox oy).wall_n, wall_w := 0 } := by
      simp [clear_west_wall]
    rw [hcwo]
    by_cases hn : (blocked ox oy).wall_n ≠ 0
    · rw [if_pos hn, if_pos hn]
    · rw [if_neg hn, if_neg hn]
      rw [runSweep, runSweep]
      refine congrArg SweepState.visible_tiles (sweep_congr _ _ _ _ _ _ _ _ ?_)
      intro t ht hts
      obtain ⟨p, s, hp1, hpd, hsp, rfl⟩ :=
        mem_sliced_prefix R _ .O7 (by simp only [boundary_radii]; omega) t ht
      rw [FovTile.new_dsec] at hts
      simp only [boundary_radii] at hpd hts
      simp only [FovTile.new_rx, FovTile.new_ry, pri_sec_to_relative]
      apply tile_at_clear_west_agree <;> push_cast <;> omega
  · rw [get_visible_tiles_8, get_visible_tiles_8, runSweep, runSweep]
    refine congrArg SweepState.visible_tiles (sweep_congr _ _ _ _ _ _ _ _ ?_)
    intro t ht hts
    obtain ⟨p, s, hp1, hpd, hsp, rfl⟩ :=
      mem_sliced_prefix R _ .O8 (by simp only [boundary_radii]; omega) t ht
    rw [FovTile.new_dsec] at hts
    simp only [boundary_radii] at hpd hts
    simp only [FovTile.new_rx, FovTile.new_ry, pri_sec_to_relative]
    apply tile_at_clear_west_agree <;> push_cast <;> omega

/-- Claim C6, witness: octant 4 is empty on a concrete 5×5 grid whose
origin `(2, 2)` carries a West wall (radius 3). -/
theorem origin_west_wall_octants_witness :
    get_visible_tiles_4 2 2
        ((TileMap.new
            (fun x y => if x = 2 ∧ y = 2 then { wall_w := 1 } else {}) 5 5).tile_at 2 2)
        (boundary_radii 2 2 5 5 .O4 3).1
        (boundary_radii 2 2 5 5 .O4 3).2
        (TileMap.new
          (fun x y => if x = 2 ∧ y = 2 then { wall_w := 1 } else {}) 5 5)
        (FovOctant.new 3 .O4) = [] :=
  (origin_west_wall_octants
    (fun x y => if x = 2 ∧ y = 2 then { wall_w := 1 } else {}) 5 5 2 2 3 3
    (by decide) (by decide) (by decide) (by with_unfolding_all decide)).1


/-- Every lookup in a fully open tilemap yields a blocker-free tile (the
out-of-range default tile is blocker-free as well). -/
theorem open_tile_free (xd yd : ℕ) (x y : ℤ) :
    ((openTileMap xd yd).tile_at x y).structure_ = 0 ∧
      ((openTileMap xd yd).tile_at x y).wall_n = 0 ∧
      ((openTileMap xd yd).tile_at x y).wall_w = 0 := by
  have hmem : ∀ t ∈ (openTileMap xd yd).tiles,
      t.structure_ = 0 ∧ t.wall_n = 0 ∧ t.wall_w = 0 := by
    intro t ht
    rw [openTileMap, TileMap.new] at ht
    simp only [List.mem_flatMap, List.mem_map, List.mem_range] at ht
    obtain ⟨yy, _, xx, _, rfl⟩ := ht
    exact ⟨rfl, rfl, rfl⟩
  have hcase : (openTileMap xd yd).tile_at x y ∈ (openTileMap xd yd).tiles ∨
      (openTileMap xd yd).tile_at x y = default := by
    rw [TileMap.tile_at, pyIndex]
    split
    · by_cases hlt : (x + y * ((openTileMap xd yd).xdims : ℤ)).toNat <
          (openTileMap xd yd).tiles.length
      · left
        rw [List.getD_eq_getElem _ _ hlt]
        exact List.getElem_mem hlt
      · right
        rw [List.getD_eq_getElem?_getD]
        rw [List.getElem?_eq_none (by omega)]
        rfl
    · by_cases hlt : (openTileMap xd yd).tiles.length - (-(x + y * ((openTileMap xd yd).xdims : ℤ))).toNat <
          (openTileMap xd yd).tiles.length
      · left
        rw [List.getD_eq_getElem _ _ hlt]
        exact List.getElem_mem hlt
      · right
        rw [List.getD_eq_getElem?_getD]
        rw [List.getElem?_eq_none (by omega)]
        rfl
  rcases hcase with h | h
  · exact hmem _ h
  · rw [h]
    exact ⟨rfl, rfl, rfl⟩

/-- On a blocker-free tile, every octant check sequence reduces to the
bare tile test and leaves the blocked words unchanged. -/
theorem check_free (body : OctantBody)
    (hb : body = check_wnt ∨ body = check_nwt ∨ body = check_ntw ∨
      body = check_tnw ∨ body = check_wtn)
    (tile : Tile) (ft : FovTile) (b1 b2 : ℕ)
    (hs : tile.structure_ = 0) (hn : tile.wall_n = 0) (hw : tile.wall_w = 0) :
    body tile ft b1 b2 =
      (b1, b2, if is_visible ft.tile_bits_1 ft.tile_bits_2 b1 b2 then 1 else 0) := by
  rcases hb with rfl | rfl | rfl | rfl | rfl <;>
  · simp only [check_wnt, check_nwt, check_ntw, check_tnw, check_wtn, hs, hn, hw,
      ne_eq, not_true_eq_false, false_and, if_false]
    split <;> simp

theorem FovTile.new_buffer_bits_ne_zero (p s : ℕ) (o : Octant) :
    (FovTile.new p s o).buffer_bits ≠ 0 := by
  have hbb : (FovTile.new p s o).buffer_bits =
      if s = 0 then 2 ^ s else if s = p then 2 ^ s ||| 2 ^ s >>> 1
      else 2 ^ s ||| 2 ^ s >>> 1 := rfl
  rw [hbb]
  intro h
  have htb : ∀ x : ℕ, (2 ^ s ||| x) ≠ 0 := by
    intro x hx
    have := congrArg (fun n => n.testBit s) hx
    simp only [Nat.testBit_or, Nat.testBit_two_pow_self, Nat.zero_testBit,
      Bool.true_or] at this
    exact Bool.noConfusion this
  split at h
  · exact absurd h (by positivity)
  · split at h
    · exact htb _ h
    · exact htb _ h

/-- The open-field behaviour of the shared sweep loop: with all-zero
blocked words and buffers and a blocker-free map, every entry passing the
`dsec` boundary is reported visible with parts `0b0001`, in order. -/
theorem open_sweep_loop (body : OctantBody)
    (hb : body = check_wnt ∨ body = check_nwt ∨ body = check_ntw ∨
      body = check_tnw ∨ body = check_wtn)
    (xd yd : ℕ) (ox oy : ℤ) (maxs : ℕ) (l : List FovTile)
    (hbits : ∀ ft ∈ l, ft.tile_bits_1 ≠ 0 ∨ ft.tile_bits_2 ≠ 0)
    (hbuf : ∀ ft ∈ l, ft.buffer_bits ≠ 0)
    (vis : List (ℕ × ℕ)) (pp : ℕ) :
    (l.foldl (sweepStep body ox oy (openTileMap xd yd) maxs)
        ⟨0, 0, vis, 0, 0, pp⟩).visible_tiles =
      vis ++ (l.filter (fun ft => decide (ft.dsec ≤ maxs))).map
        (fun ft => (((openTileMap xd yd).tile_at (ox + ft.rx) (oy + ft.ry)).tid, 1)) := by
  induction l generalizing vis pp with
  | nil => simp
  | cons ft l ih =>
    rw [List.foldl_cons]
    by_cases hd : ft.dsec > maxs
    · have hstep : sweepStep body ox oy (openTileMap xd yd) maxs ⟨0, 0, vis, 0, 0, pp⟩ ft =
          ⟨0, 0, vis, 0, 0, pp⟩ := by
        rw [sweepStep, if_pos hd]
      rw [hstep, List.filter_cons_of_neg (by simpa using hd)]
      exact ih (fun f hf => hbits f (List.mem_cons_of_mem _ hf))
        (fun f hf => hbuf f (List.mem_cons_of_mem _ hf)) vis pp
    · have hvis : is_visible ft.tile_bits_1 ft.tile_bits_2 0 0 = true := by
        rw [is_visible]
        have := hbits ft (List.mem_cons_self ft l)
        simp only [Nat.and_zero, Nat.sub_zero, decide_eq_true_eq]
        omega
      have hfree := open_tile_free xd yd (ox + ft.rx) (oy + ft.ry)
      have hbody := check_free body hb
        ((openTileMap xd yd).tile_at (ox + ft.rx) (oy + ft.ry)) ft 0 0
        hfree.1 hfree.2.1 hfree.2.2
      have hbne : ¬ (ft.buffer_bits &&& (0 : ℕ) = ft.buffer_bits) := by
        rw [Nat.and_zero]
        exact fun he => hbuf ft (List.mem_cons_self ft l) he.symm
      have hstep : sweepStep body ox oy (openTileMap xd yd) maxs ⟨0, 0, vis, 0, 0, pp⟩ ft =
          ⟨0, 0, vis ++ [(((openTileMap xd yd).tile_at (ox + ft.rx) (oy + ft.ry)).tid, 1)],
            0, 0, ft.dpri⟩ := by
        by_cases hdp : ft.dpri > pp <;>
          simp only [sweepStep, hd, if_false, gt_iff_lt, hdp, if_true, hbne,
            hbody, hvis, Nat.and_zero, ite_true, ite_false] <;>
          norm_num <;>
          exact fun he => hbuf ft (List.mem_cons_self ft l) he.symm
      rw [hstep, List.filter_cons_of_pos (by simpa using (by omega : ft.dsec ≤ maxs))]
      rw [ih (fun f hf => hbits f (List.mem_cons_of_mem _ hf))
        (fun f hf => hbuf f (List.mem_cons_of_mem _ hf)) _ ft.dpri]
      simp

/-- For `1 ≤ dpri ≤ 127` and `dsec ≤ dpri`, the whole-tile slope interval
is wide enough that its quantized index range `[⌈lo·255⌉, ⌊hi·255⌋]` is
nonempty and inside `[0, 255]`. -/
theorem tile_slopes_index_range (p s : ℕ) (hp : 1 ≤ p) (hp127 : p ≤ 127)
    (hsp : s ≤ p) :
    ⌈(tile_slopes p s).1 * 255⌉ ≤ ⌊(tile_slopes p s).2 * 255⌋ ∧
      0 ≤ ⌈(tile_slopes p s).1 * 255⌉ ∧ ⌈(tile_slopes p s).1 * 255⌉ ≤ 255 ∧
      0 ≤ ⌊(tile_slopes p s).2 * 255⌋ := by
  have hP1 : (1 : ℚ) ≤ (p : ℚ) := by exact_mod_cast hp
  have hP127 : (p : ℚ) ≤ 127 := by exact_mod_cast hp127
  have hSP : (s : ℚ) ≤ (p : ℚ) := by exact_mod_cast hsp
  have hS0 : (0 : ℚ) ≤ (s : ℚ) := by positivity
  have hd1 : (0 : ℚ) < (p : ℚ) - 1/2 := by linarith
  have hd2 : (0 : ℚ) < (p : ℚ) + 1/2 := by linarith
  -- bounds on the raw lo/hi of tile_slopes
  have key : 0 ≤ (tile_slopes p s).1 ∧ (tile_slopes p s).1 ≤ 1 ∧
      (tile_slopes p s).1 + 1/255 ≤ (tile_slopes p s).2 := by
    rw [tile_slopes]
    by_cases hs : s = 0
    · rw [if_pos hs]
      refine ⟨le_refl 0, by norm_num, ?_⟩
      simp only [zero_add]
      rw [le_min_iff]
      constructor
      · rw [le_div_iff hd1]
        nlinarith
      · norm_num
    · rw [if_neg hs]
      have hS1 : (1 : ℚ) ≤ (s : ℚ) := by
        have : 1 ≤ s := by omega
        exact_mod_cast this
      have hmax : max (((s : ℚ) - 1/2) / ((p : ℚ) + 1/2)) 0 =
          ((s : ℚ) - 1/2) / ((p : ℚ) + 1/2) :=
        max_eq_left (div_nonneg (by linarith) (by linarith))
      rw [hmax]
      refine ⟨div_nonneg (by linarith) (by linarith), ?_, ?_⟩
      · rw [div_le_one hd2]
        linarith
      · rw [le_min_iff]
        constructor
        · have e1 : ((s : ℚ) + 1/2) / ((p : ℚ) - 1/2) -
              ((s : ℚ) - 1/2) / ((p : ℚ) + 1/2) =
              ((p : ℚ) + (s : ℚ)) / (((p : ℚ) - 1/2) * ((p : ℚ) + 1/2)) := by
            rw [div_sub_div _ _ hd1.ne' hd2.ne']
            rw [div_eq_div_iff (by positivity) (by positivity)]
            ring
          have e2 : (1 : ℚ)/255 ≤
              ((p : ℚ) + (s : ℚ)) / (((p : ℚ) - 1/2) * ((p : ℚ) + 1/2)) := by
            rw [div_le_div_iff (by norm_num) (by positivity)]
            nlinarith
          linarith
        · have e3 : ((s : ℚ) - 1/2) / ((p : ℚ) + 1/2) ≤ 254/255 := by
            rw [div_le_iff hd2]
            nlinarith
          linarith
  obtain ⟨h1, h2, h3⟩ := key
  have hceil : (⌈(tile_slopes p s).1 * 255⌉ : ℚ) < (tile_slopes p s).1 * 255 + 1 :=
    Int.ceil_lt_add_one _
  refine ⟨?_, ?_, ?_, ?_⟩
  · rw [Int.le_floor]
    push_cast
    nlinarith
  · exact Int.ceil_nonneg (by positivity)
  · have : (tile_slopes p s).1 * 255 ≤ ((255 : ℤ) : ℚ) := by push_cast; nlinarith
    exact Int.ceil_le.2 this
  · apply Int.floor_nonneg.2
    nlinarith

/-- Every table cell with `1 ≤ dpri ≤ 127` has a nonzero whole-tile
bitset. -/
theorem tile_bits_ne_zero (p s : ℕ) (hp : 1 ≤ p) (hp127 : p ≤ 127)
    (hsp : s ≤ p) (o : Octant) :
    (FovTile.new p s o).tile_bits_1 ≠ 0 ∨ (FovTile.new p s o).tile_bits_2 ≠ 0 := by
  have hfield1 : (FovTile.new p s o).tile_bits_1 =
      (quantized_slopes_256 (tile_slopes p s).1 (tile_slopes p s).2).1 := rfl
  have hfield2 : (FovTile.new p s o).tile_bits_2 =
      (quantized_slopes_256 (tile_slopes p s).1 (tile_slopes p s).2).2 := rfl
  obtain ⟨hLH, hL0, hL255, hH0⟩ := tile_slopes_index_range p s hp hp127 hsp
  have hbit : pairBit (quantized_slopes_256 (tile_slopes p s).1 (tile_slopes p s).2)
      (⌈(tile_slopes p s).1 * 255⌉.toNat) = true := by
    rw [quantized_slopes_256_bit]
    omega
  by_cases hb : ⌈(tile_slopes p s).1 * 255⌉.toNat < 128
  · left
    rw [hfield1]
    intro h0
    rw [pairBit, if_pos hb, h0, Nat.zero_testBit] at hbit
    exact Bool.noConfusion hbit
  · right
    rw [hfield2]
    intro h0
    rw [pairBit, if_neg hb, h0, Nat.zero_testBit] at hbit
    exact Bool.noConfusion hbit

theorem and_one_eq_one_iff_testBit (x : ℕ) : x &&& 1 = 1 ↔ x.testBit 0 = true := by
  rw [Nat.and_one_is_mod, Nat.testBit_zero]
  simp

/-- Merging octant lists never clears an already-set visibility bit. -/
theorem update_visible_tiles_mono (l : List (ℕ × ℕ)) (d : ℕ → Option ℕ) (tid b : ℕ)
    (h : (((d tid).getD 0)).testBit b = true) :
    (((update_visible_tiles d l tid).getD 0)).testBit b = true := by
  induction l generalizing d with
  | nil => exact h
  | cons p l ih =>
    rw [update_visible_tiles, List.foldl_cons]
    apply ih
    by_cases he : tid = p.1
    · subst he
      simp only [eq_self_iff_true, if_true, Option.getD_some, Nat.testBit_or, h,
        Bool.true_or]
    · simp only [if_neg he]
      exact h

/-- A pair reported by an octant list sets its bits in the merged map. -/
theorem update_visible_tiles_intro (l : List (ℕ × ℕ)) (d : ℕ → Option ℕ)
    (tid v b : ℕ) (hmem : (tid, v) ∈ l) (hv : v.testBit b = true) :
    (((update_visible_tiles d l tid).getD 0)).testBit b = true := by
  induction l generalizing d with
  | nil => cases hmem
  | cons p l ih =>
    rw [update_visible_tiles, List.foldl_cons]
    rcases List.mem_cons.1 hmem with he | hm
    · have hp : p.1 = tid ∧ p.2 = v := by
        rw [← he]
        exact ⟨rfl, rfl⟩
      apply update_visible_tiles_mono
      simp only [hp.1, hp.2, eq_self_iff_true, if_true, Option.getD_some,
        Nat.testBit_or, hv, Bool.or_true]
    · exact ih _ hm

theorem shaping_included_mono (r R p s : ℕ) (hrR : r ≤ R)
    (h : shaping_included r p s = true) : shaping_included R p s = true := by
  simp only [shaping_included, decide_eq_true_eq] at h ⊢
  have hq : ((r : ℚ)) * (r : ℚ) ≤ ((R : ℚ)) * (R : ℚ) := by
    have h1 : ((r : ℚ)) ≤ (R : ℚ) := by exact_mod_cast hrR
    have h2 : (0 : ℚ) ≤ (r : ℚ) := by positivity
    nlinarith
  by_cases hp0 : p = 0
  · rw [if_pos hp0] at h ⊢
    linarith
  · rw [if_neg hp0] at h ⊢
    linarith

theorem shaping_le_radius (r p s : ℕ) (hp : 1 ≤ p)
    (h : shaping_included r p s = true) : p ≤ r := by
  simp only [shaping_included, decide_eq_true_eq] at h
  rw [if_neg (by omega : ¬ p = 0)] at h
  by_contra hc
  have hp1 : ((r : ℚ)) + 1 ≤ (p : ℚ) := by exact_mod_cast by omega
  have hr0 : (0 : ℚ) ≤ (r : ℚ) := by positivity
  nlinarith [sq_nonneg ((s : ℚ) - 1/2)]

theorem mem_tiles_shape (R : ℕ) (o : Octant) (t : FovTile)
    (ht : t ∈ (FovOctant.new R o).tiles) :
    ∃ p s : ℕ, 1 ≤ p ∧ p ≤ R ∧ s ≤ p ∧ t = FovTile.new p s o := by
  rw [fovOctant_tiles_eq, List.mem_flatMap] at ht
  obtain ⟨i, hi, hti⟩ := ht
  rw [List.mem_range] at hi
  rw [octant_column, List.mem_map] at hti
  obtain ⟨s, hs, rfl⟩ := hti
  rw [List.mem_filter, List.mem_range] at hs
  exact ⟨i + 1, s, by omega, by omega, by omega, rfl⟩

theorem new_mem_tiles (R p s : ℕ) (o : Octant) (hp1 : 1 ≤ p) (hpR : p ≤ R)
    (hsp : s ≤ p) (hshape : shaping_included R p s = true) :
    FovTile.new p s o ∈ (FovOctant.new R o).tiles := by
  rw [fovOctant_tiles_eq, List.mem_flatMap]
  refine ⟨p - 1, by rw [List.mem_range]; omega, ?_⟩
  have hp : p - 1 + 1 = p := by omega
  rw [hp, octant_column, List.mem_map]
  refine ⟨s, ?_, rfl⟩
  rw [List.mem_filter, List.mem_range]
  exact ⟨by omega, hshape⟩

/-- On a blocker-free map, every in-slice table cell is reported with
visible parts `0b0001`. -/
theorem open_sweep_contains (body : OctantBody)
    (hb : body = check_wnt ∨ body = check_nwt ∨ body = check_ntw ∨
      body = check_tnw ∨ body = check_wtn)
    (xd yd R maxd maxs pN sN : ℕ) (ox oy : ℤ) (o : Octant)
    (hmd : maxd ≤ R) (hR : R ≤ 127) (hp1 : 1 ≤ pN) (hpd : pN ≤ maxd)
    (hsp : sN ≤ pN) (hss : sN ≤ maxs)
    (hshape : shaping_included R pN sN = true) :
    (((openTileMap xd yd).tile_at (ox + (FovTile.new pN sN o).rx)
        (oy + (FovTile.new pN sN o).ry)).tid, 1) ∈
      runSweep body ox oy maxd maxs (openTileMap xd yd) (FovOctant.new R o)
        .init := by
  rw [runSweep]
  rw [(fovOctant_new_spec R o).2.2.2 maxd hmd]
  have hbits : ∀ ft ∈ (FovOctant.new R o).tiles.filter (fun t => t.dpri ≤ maxd),
      ft.tile_bits_1 ≠ 0 ∨ ft.tile_bits_2 ≠ 0 := by
    intro ft hft
    rw [List.mem_filter] at hft
    obtain ⟨p, s, h1, h2, h3, rfl⟩ := mem_tiles_shape R o ft hft.1
    exact tile_bits_ne_zero p s h1 (by omega) h3 o
  have hbuf : ∀ ft ∈ (FovOctant.new R o).tiles.filter (fun t => t.dpri ≤ maxd),
      ft.buffer_bits ≠ 0 := by
    intro ft hft
    rw [List.mem_filter] at hft
    obtain ⟨p, s, h1, h2, h3, rfl⟩ := mem_tiles_shape R o ft hft.1
    exact FovTile.new_buffer_bits_ne_zero p s o
  rw [show (SweepState.init) = (⟨0, 0, [], 0, 0, 0⟩ : SweepState) from rfl]
  rw [open_sweep_loop body hb xd yd ox oy maxs _ hbits hbuf [] 0]
  rw [List.nil_append, List.mem_map]
  refine ⟨FovTile.new pN sN o, ?_, rfl⟩
  rw [List.mem_filter, List.mem_filter]
  refine ⟨⟨new_mem_tiles R pN sN o hp1 (shaping_le_radius R pN sN hp1 hshape)
    hsp hshape, ?_⟩, ?_⟩
  · rw [decide_eq_true_eq, FovTile.new_dpri]
    omega
  · rw [decide_eq_true_eq, FovTile.new_dsec]
    omega

theorem open_field_cell (body : OctantBody)
    (hb : body = check_wnt ∨ body = check_nwt ∨ body = check_ntw ∨
      body = check_tnw ∨ body = check_wtn)
    (o : Octant) (xdims ydims R maxd maxs x y ox oy pN sN : ℕ)
    (hmd : maxd ≤ R) (hR : R ≤ 127) (hp1 : 1 ≤ pN) (hpd : pN ≤ maxd)
    (hsp : sN ≤ pN) (hss : sN ≤ maxs)
    (hshape : shaping_included R pN sN = true)
    (hx : x < xdims) (hy : y < ydims)
    (hrx : (ox : ℤ) + (FovTile.new pN sN o).rx = (x : ℤ))
    (hry : (oy : ℤ) + (FovTile.new pN sN o).ry = (y : ℤ)) :
    (to_tile_id x y xdims, 1) ∈
      runSweep body ox oy maxd maxs (openTileMap xdims ydims)
        (FovOctant.new R o) .init := by
  have h := open_sweep_contains body hb xdims ydims R maxd maxs pN sN ox oy o
    hmd hR hp1 hpd hsp hss hshape
  rw [hrx, hry] at h
  have htid : ((openTileMap xdims ydims).tile_at (x : ℤ) (y : ℤ)).tid =
      to_tile_id x y xdims := by
    rw [show openTileMap xdims ydims =
      TileMap.new (fun _ _ => ({} : Blockers)) xdims ydims from rfl]
    rw [tile_at_new (fun _ _ => ({} : Blockers)) xdims ydims x y
      (by positivity) (by exact_mod_cast hx) (by positivity) (by exact_mod_cast hy)]
    simp [Int.toNat_natCast]
  rw [htid] at h
  exact h

/-- Claim C2: open field.  For every blocker-free tilemap, in-bounds
origin, and radius `2 ≤ radius ≤ R ≤ 127` (the build radius, standardized
to at most 127), every in-bounds cell whose relative offset passes the
circular shaping test of the table construction has its tile bit set in
the map returned by `fov_calc`; and in scenario A (5×5 open grid, origin
(2,2), radius 3) all 25 cells are reported tile-visible. -/
theorem fov_calc_open_field :
    (∀ xdims ydims ox oy R radius : ℕ, ox < xdims → oy < ydims →
      2 ≤ radius → radius ≤ R → R ≤ 127 →
      ∀ x y : ℕ, x < xdims → y < ydims →
      shaping_included radius
          (max ((x : ℤ) - (ox : ℤ)).natAbs ((y : ℤ) - (oy : ℤ)).natAbs)
          (min ((x : ℤ) - (ox : ℤ)).natAbs ((y : ℤ) - (oy : ℤ)).natAbs) = true →
      tile_bit (fov_calc ox oy (openTileMap xdims ydims) (FovMap.new R) radius)
        (to_tile_id x y xdims) = 1) ∧
    (∀ tid, tid < 25 →
      tile_bit (fov_calc 2 2 (openTileMap 5 5) (FovMap.new 3) 3) tid = 1) := by
  refine ⟨?_, by with_unfolding_all decide⟩
  intro xdims ydims ox oy R radius hox hoy hrad2 hradR hR x y hx hy hshape
  have hfw : ((openTileMap xdims ydims).tile_at (ox : ℤ) (oy : ℤ)).wall_w = 0 :=
    (open_tile_free xdims ydims ox oy).2.2
  have hfn : ((openTileMap xdims ydims).tile_at (ox : ℤ) (oy : ℤ)).wall_n = 0 :=
    (open_tile_free xdims ydims ox oy).2.1
  have htid0 : ((openTileMap xdims ydims).tile_at (ox : ℤ) (oy : ℤ)).tid =
      to_tile_id ox oy xdims := by
    rw [show openTileMap xdims ydims =
      TileMap.new (fun _ _ => ({} : Blockers)) xdims ydims from rfl]
    rw [tile_at_new (fun _ _ => ({} : Blockers)) xdims ydims ox oy
      (by positivity) (by exact_mod_cast hox) (by positivity) (by exact_mod_cast hoy)]
    simp [Int.toNat_natCast]
  simp only [tile_bit]
  rw [and_one_eq_one_iff_testBit]
  simp only [fov_calc, get_visible_tiles_1, get_visible_tiles_2,
    get_visible_tiles_3, get_visible_tiles_4, get_visible_tiles_5,
    get_visible_tiles_6, get_visible_tiles_7, get_visible_tiles_8,
    FovMap.new, hfw, hfn, ne_eq, eq_self_iff_true, not_true_eq_false,
    if_false, ite_false]
  by_cases horigin : x = ox ∧ y = oy
  · obtain ⟨rfl, rfl⟩ := horigin
    apply update_visible_tiles_mono
    apply update_visible_tiles_mono
    apply update_visible_tiles_mono
    apply update_visible_tiles_mono
    apply update_visible_tiles_mono
    apply update_visible_tiles_mono
    apply update_visible_tiles_mono
    apply update_visible_tiles_mono
    rw [htid0]
    simp only [eq_self_iff_true, if_true, Option.getD_some]
    decide
  · have hp1 : 1 ≤ max ((x : ℤ) - (ox : ℤ)).natAbs ((y : ℤ) - (oy : ℤ)).natAbs := by
      omega
    have hpr : max ((x : ℤ) - (ox : ℤ)).natAbs ((y : ℤ) - (oy : ℤ)).natAbs ≤ radius :=
      shaping_le_radius radius _ _ hp1 hshape
    have hshapeR : shaping_included R
        (max ((x : ℤ) - (ox : ℤ)).natAbs ((y : ℤ) - (oy : ℤ)).natAbs)
        (min ((x : ℤ) - (ox : ℤ)).natAbs ((y : ℤ) - (oy : ℤ)).natAbs) = true :=
      shaping_included_mono radius R _ _ hradR hshape
    by_cases hxo : ox ≤ x <;> by_cases hyo : oy ≤ y <;>
      by_cases hdd : ((y : ℤ) - (oy : ℤ)).natAbs ≤ ((x : ℤ) - (ox : ℤ)).natAbs
    · -- O1
      apply update_visible_tiles_mono
      apply update_visible_tiles_mono
      apply update_visible_tiles_mono
      apply update_visible_tiles_mono
      apply update_visible_tiles_mono
      apply update_visible_tiles_mono
      apply update_visible_tiles_mono
      refine update_visible_tiles_intro _ _ _ 1 0 ?_ (by decide)
      refine open_field_cell _ (Or.inl rfl) .O1 xdims ydims R _ _ x y ox oy
        ((x : ℤ) - (ox : ℤ)).natAbs ((y : ℤ) - (oy : ℤ)).natAbs
        (by simp only [boundary_radii, openTileMap, TileMap.new]; omega) hR (by omega)
        (by simp only [boundary_radii, openTileMap, TileMap.new]; omega) (by omega)
        (by simp only [boundary_radii, openTileMap, TileMap.new]; omega)
        (by rwa [max_eq_left hdd, min_eq_right hdd] at hshapeR) hx hy ?_ ?_ <;>
        simp only [FovTile.new_rx, FovTile.new_ry, pri_sec_to_relative] <;>
        omega
    · -- O2
      apply update_visible_tiles_mono
      apply update_visible_tiles_mono
      apply update_visible_tiles_mono
      apply update_visible_tiles_mono
      apply update_visible_tiles_mono
      apply update_visible_tiles_mono
      refine update_visible_tiles_intro _ _ _ 1 0 ?_ (by decide)
      refine open_field_cell _ (Or.inr (Or.inl rfl)) .O2 xdims ydims R _ _ x y ox oy
        ((y : ℤ) - (oy : ℤ)).natAbs ((x : ℤ) - (ox : ℤ)).natAbs
        (by simp only [boundary_radii, openTileMap, TileMap.new]; omega) hR (by omega)
        (by simp only [boundary_radii, openTileMap, TileMap.new]; omega) (by omega)
        (by simp only [boundary_radii, openTileMap, TileMap.new]; omega)
        (by rwa [max_eq_right (le_of_not_le hdd), min_eq_left (le_of_not_le hdd)] at hshapeR)
        hx hy ?_ ?_ <;>
        simp only [FovTile.new_rx, FovTile.new_ry, pri_sec_to_relative] <;>
        omega
    · -- ox ≤ x, y < oy, dya ≤ dxa: O8
      refine update_visible_tiles_intro _ _ _ 1 0 ?_ (by decide)
      refine open_field_cell _ (Or.inr (Or.inr (Or.inr (Or.inr rfl)))) .O8
        xdims ydims R _ _ x y ox oy
        ((x : ℤ) - (ox : ℤ)).natAbs ((y : ℤ) - (oy : ℤ)).natAbs
        (by simp only [boundary_radii, openTileMap, TileMap.new]; omega) hR (by omega)
        (by simp only [boundary_radii, openTileMap, TileMap.new]; omega) (by omega)
        (by simp only [boundary_radii, openTileMap, TileMap.new]; omega)
        (by rwa [max_eq_left hdd, min_eq_right hdd] at hshapeR) hx hy ?_ ?_ <;>
        simp only [FovTile.new_rx, FovTile.new_ry, pri_sec_to_relative] <;>
        omega
    · -- ox ≤ x, y < oy, dxa < dya: O7
      apply update_visible_tiles_mono
      refine update_visible_tiles_intro _ _ _ 1 0 ?_ (by decide)
      refine open_field_cell _ (Or.inr (Or.inr (Or.inr (Or.inr rfl)))) .O7
        xdims ydims R _ _ x y ox oy
        ((y : ℤ) - (oy : ℤ)).natAbs ((x : ℤ) - (ox : ℤ)).natAbs
        (by simp only [boundary_radii, openTileMap, TileMap.new]; omega) hR (by omega)
        (by simp only [boundary_radii, openTileMap, TileMap.new]; omega) (by omega)
        (by simp only [boundary_radii, openTileMap, TileMap.new]; omega)
        (by rwa [max_eq_right (le_of_not_le hdd), min_eq_left (le_of_not_le hdd)] at hshapeR)
        hx hy ?_ ?_ <;>
        simp only [FovTile.new_rx, FovTile.new_ry, pri_sec_to_relative] <;>
        omega
    · -- x < ox, oy ≤ y, dya ≤ dxa: O4
      apply update_visible_tiles_mono
      apply update_visible_tiles_mono
      apply update_visible_tiles_mono
      apply update_visible_tiles_mono
      refine update_visible_tiles_intro _ _ _ 1 0 ?_ (by decide)
      refine open_field_cell _ (Or.inr (Or.inr (Or.inl rfl))) .O4
        xdims ydims R _ _ x y ox oy
        ((x : ℤ) - (ox : ℤ)).natAbs ((y : ℤ) - (oy : ℤ)).natAbs
        (by simp only [boundary_radii, openTileMap, TileMap.new]; omega) hR (by omega)
        (by simp only [boundary_radii, openTileMap, TileMap.new]; omega) (by omega)
        (by simp only [boundary_radii, openTileMap, TileMap.new]; omega)
        (by rwa [max_eq_left hdd, min_eq_right hdd] at hshapeR) hx hy ?_ ?_ <;>
        simp only [FovTile.new_rx, FovTile.new_ry, pri_sec_to_relative] <;>
        omega
    · -- x < ox, oy ≤ y, dxa < dya: O3
      apply update_visible_tiles_mono
      apply update_visible_tiles_mono
      apply update_visible_tiles_mono
      apply update_visible_tiles_mono
      apply update_visible_tiles_mono
      refine update_visible_tiles_intro _ _ _ 1 0 ?_ (by decide)
      refine open_field_cell _ (Or.inr (Or.inr (Or.inl rfl))) .O3
        xdims ydims R _ _ x y ox oy
        ((y : ℤ) - (oy : ℤ)).natAbs ((x : ℤ) - (ox : ℤ)).natAbs
        (by simp only [boundary_radii, openTileMap, TileMap.new]; omega) hR (by omega)
        (by simp only [boundary_radii, openTileMap, TileMap.new]; omega) (by omega)
        (by simp only [boundary_radii, openTileMap, TileMap.new]; omega)
        (by rwa [max_eq_right (le_of_not_le hdd), min_eq_left (le_of_not_le hdd)] at hshapeR)
        hx hy ?_ ?_ <;>
        simp only [FovTile.new_rx, FovTile.new_ry, pri_sec_to_relative] <;>
        omega
    · -- x < ox, y < oy, dya ≤ dxa: O5
      apply update_visible_tiles_mono
      apply update_visible_tiles_mono
      apply update_visible_tiles_mono
      refine update_visible_tiles_intro _ _ _ 1 0 ?_ (by decide)
      refine open_field_cell _ (Or.inr (Or.inr (Or.inr (Or.inl rfl)))) .O5
        xdims ydims R _ _ x y ox oy
        ((x : ℤ) - (ox : ℤ)).natAbs ((y : ℤ) - (oy : ℤ)).natAbs
        (by simp only [boundary_radii, openTileMap, TileMap.new]; omega) hR (by omega)
        (by simp only [boundary_radii, openTileMap, TileMap.new]; omega) (by omega)
        (by simp only [boundary_radii, openTileMap, TileMap.new]; omega)
        (by rwa [max_eq_left hdd, min_eq_right hdd] at hshapeR) hx hy ?_ ?_ <;>
        simp only [FovTile.new_rx, FovTile.new_ry, pri_sec_to_relative] <;>
        omega
    · -- x < ox, y < oy, dxa < dya: O6
      apply update_visible_tiles_mono
      apply update_visible_tiles_mono
      refine update_visible_tiles_intro _ _ _ 1 0 ?_ (by decide)
      refine open_field_cell _ (Or.inr (Or.inr (Or.inr (Or.inl rfl)))) .O6
        xdims ydims R _ _ x y ox oy
        ((y : ℤ) - (oy : ℤ)).natAbs ((x : ℤ) - (ox : ℤ)).natAbs
        (by simp only [boundary_radii, openTileMap, TileMap.new]; omega) hR (by omega)
        (by simp only [boundary_radii, openTileMap, TileMap.new]; omega) (by omega)
        (by simp only [boundary_radii, openTileMap, TileMap.new]; omega)
        (by rwa [max_eq_right (le_of_not_le hdd), min_eq_left (le_of_not_le hdd)] at hshapeR)
        hx hy ?_ ?_ <;>
        simp only [FovTile.new_rx, FovTile.new_ry, pri_sec_to_relative] <;>
        omega

/-- Witness for C2: scenario A corner cell (0, 0) on the 5×5 open map with
origin (2, 2) and radius 3 is tile-visible. -/
theorem fov_calc_open_field_witness :
    (2 ≤ (3 : ℕ) ∧ shaping_included 3
      (max ((0 : ℤ) - (2 : ℤ)).natAbs ((0 : ℤ) - (2 : ℤ)).natAbs)
      (min ((0 : ℤ) - (2 : ℤ)).natAbs ((0 : ℤ) - (2 : ℤ)).natAbs) = true) ∧
    tile_bit (fov_calc 2 2 (openTileMap 5 5) (FovMap.new 3) 3) (to_tile_id 0 0 5) = 1 :=
  ⟨⟨by decide, by with_unfolding_all decide⟩,
    fov_calc_open_field.1 5 5 2 2 3 3 (by decide) (by decide) (by decide)
      (by decide) (by decide) 0 0 (by decide) (by decide)
      (by with_unfolding_all decide)⟩



/-!  ###  C3 — buffer pruning refinement: word helpers  -/

theorem subw_trans (x y z : ℕ) (h1 : x &&& y = x) (h2 : y &&& z = y) :
    x &&& z = x := by
  rw [and_eq_left_iff_testBit] at h1 h2 ⊢
  exact fun i hi => h2 i (h1 i hi)

theorem subw_or_left (x y : ℕ) : x &&& (x ||| y) = x := by
  rw [and_eq_left_iff_testBit]
  intro i hi
  simp [Nat.testBit_or, hi]

theorem subw_or_right (x y : ℕ) : y &&& (x ||| y) = y := by
  rw [and_eq_left_iff_testBit]
  intro i hi
  simp [Nat.testBit_or, hi]

theorem or_subw (x y z : ℕ) (h1 : x &&& z = x) (h2 : y &&& z = y) :
    (x ||| y) &&& z = x ||| y := by
  rw [and_eq_left_iff_testBit] at h1 h2 ⊢
  intro i hi
  rw [Nat.testBit_or] at hi
  rcases Bool.or_eq_true_iff.mp hi with h | h
  · exact h1 i h
  · exact h2 i h

theorem or_one_and_one (x y : ℕ) : ((x ||| 1) ||| y) &&& 1 = 1 := by
  apply Nat.eq_of_testBit_eq
  intro i
  cases i with
  | zero => simp [Nat.testBit_or]
  | succ n => simp [Nat.testBit_or, Nat.testBit_succ]

/-- Bridge a `pairBit`-level inclusion of two-word bitfields to the two
word-level `&&&` equations (both words bounded by `2^128`). -/
theorem pair_sub_words (X Y : ℕ × ℕ) (hX1 : X.1 < 2 ^ 128) (hX2 : X.2 < 2 ^ 128)
    (h : ∀ b, pairBit X b = true → pairBit Y b = true) :
    X.1 &&& Y.1 = X.1 ∧ X.2 &&& Y.2 = X.2 := by
  constructor
  · rw [and_eq_left_iff_testBit]
    intro i hi
    by_cases hlt : i < 128
    · have := h i
      simp only [pairBit, if_pos hlt] at this
      exact this hi
    · exact absurd hi (by
        rw [Nat.testBit_lt_two_pow (lt_of_lt_of_le hX1 (Nat.pow_le_pow_right (by norm_num) (by omega)))]
        simp)
  · rw [and_eq_left_iff_testBit]
    intro i hi
    by_cases hlt : i < 128
    · have := h (i + 128)
      simp only [pairBit, if_neg (by omega : ¬ i + 128 < 128),
        Nat.add_sub_cancel] at this
      exact this hi
    · exact absurd hi (by
        rw [Nat.testBit_lt_two_pow (lt_of_lt_of_le hX2 (Nat.pow_le_pow_right (by norm_num) (by omega)))]
        simp)

/-- Monotonicity of the quantization: enlarging the slope interval only
adds set bits. -/
theorem quantized_pairBit_mono (lo hi lo' hi' : ℚ) (hlo : lo ≤ lo') (hhi : hi' ≤ hi)
    (b : ℕ) (hb : pairBit (quantized_slopes_256 lo' hi') b = true) :
    pairBit (quantized_slopes_256 lo hi) b = true := by
  rw [quantized_slopes_256_bit] at hb ⊢
  have hc : ⌈lo * 255⌉ ≤ ⌈lo' * 255⌉ :=
    Int.ceil_le_ceil (mul_le_mul_of_nonneg_right hlo (by norm_num))
  have hf : ⌊hi' * 255⌋ ≤ ⌊hi * 255⌋ :=
    Int.floor_le_floor (mul_le_mul_of_nonneg_right hhi (by norm_num))
  omega

/-- Coverage of a quantized slope interval by two overlapping quantized
intervals: if `[lo₁, hi₁]` reaches below `lo`, `[lo₂, hi₂]` reaches above
`hi`, and the two overlap (`lo₂ ≤ hi₁`, `0 ≤ hi₁`), then every bit of the
quantization of `[lo, hi]` lies in one of the two quantizations. -/
theorem quantized_pairBit_union (lo hi lo1 hi1 lo2 hi2 : ℚ)
    (h1 : lo1 ≤ lo) (h2 : hi ≤ hi2) (h3 : lo2 ≤ hi1) (h4 : 0 ≤ hi1)
    (b : ℕ) (hb : pairBit (quantized_slopes_256 lo hi) b = true) :
    pairBit (quantized_slopes_256 lo1 hi1) b = true ∨
      pairBit (quantized_slopes_256 lo2 hi2) b = true := by
  rw [quantized_slopes_256_bit] at hb
  rw [quantized_slopes_256_bit, quantized_slopes_256_bit]
  have hc1 : ⌈lo1 * 255⌉ ≤ ⌈lo * 255⌉ :=
    Int.ceil_le_ceil (mul_le_mul_of_nonneg_right h1 (by norm_num))
  have hf2 : ⌊hi * 255⌋ ≤ ⌊hi2 * 255⌋ :=
    Int.floor_le_floor (mul_le_mul_of_nonneg_right h2 (by norm_num))
  have hgap : ⌈lo2 * 255⌉ ≤ ⌊hi1 * 255⌋ + 1 :=
    le_trans (Int.ceil_le_ceil (mul_le_mul_of_nonneg_right h3 (by norm_num)))
      (Int.ceil_le_floor_add_one _)
  have hnn : (0 : ℤ) ≤ ⌊hi1 * 255⌋ := by
    have : (0 : ℚ) ≤ hi1 * 255 := by positivity
    exact_mod_cast Int.le_floor.mpr (by exact_mod_cast this)
  omega

/-- The whole-tile slope interval of cell `(q+1, t+1)` is covered from
below by that of `(q, t)` and from above by that of `(q, t+1)`, with the
two overlapping: the geometric core of the buffer-pruning argument. -/
theorem tile_slopes_union (q t : ℕ) (hq : 1 ≤ q) (ht : t + 1 ≤ q) :
    (tile_slopes q t).1 ≤ (tile_slopes (q + 1) (t + 1)).1 ∧
      (tile_slopes (q + 1) (t + 1)).2 ≤ (tile_slopes q (t + 1)).2 ∧
      (tile_slopes q (t + 1)).1 ≤ (tile_slopes q t).2 ∧
      0 ≤ (tile_slopes q t).2 := by
  have hQ1 : (1 : ℚ) ≤ (q : ℚ) := by exact_mod_cast hq
  have hT : (t : ℚ) + 1 ≤ (q : ℚ) := by exact_mod_cast ht
  have hT0 : (0 : ℚ) ≤ (t : ℚ) := by positivity
  have hd1 : (0 : ℚ) < (q : ℚ) - 1/2 := by linarith
  have hd2 : (0 : ℚ) < (q : ℚ) + 1/2 := by linarith
  have hd3 : (0 : ℚ) < (q : ℚ) + 3/2 := by linarith
  refine ⟨?_, ?_, ?_, ?_⟩
  · -- low end: lo(q, t) ≤ lo(q+1, t+1)
    rw [tile_slopes, tile_slopes]
    rw [if_neg (by omega : ¬ t + 1 = 0)]
    push_cast
    rcases Nat.eq_zero_or_pos t with rfl | htpos
    · rw [if_pos rfl]
      dsimp only
      push_cast
      exact le_max_right _ _
    · rw [if_neg (by omega : ¬ t = 0)]
      dsimp only
      apply max_le_max _ le_rfl
      rw [div_le_div_iff (by linarith) (by linarith)]
      push_cast
      nlinarith
  · -- high end: hi(q+1, t+1) ≤ hi(q, t+1)
    rw [tile_slopes, tile_slopes]
    rw [if_neg (by omega : ¬ t + 1 = 0), if_neg (by omega : ¬ t + 1 = 0)]
    dsimp only
    apply min_le_min _ le_rfl
    push_cast
    apply div_le_div_of_nonneg_left (by linarith) (by linarith) (by linarith)
  · -- overlap: lo(q, t+1) ≤ hi(q, t)
    rw [tile_slopes, tile_slopes]
    rw [if_neg (by omega : ¬ t + 1 = 0)]
    rcases Nat.eq_zero_or_pos t with rfl | htpos
    · rw [if_pos rfl]
      dsimp only
      push_cast
      apply max_le _ (by positivity)
      apply le_min
      · rw [div_le_div_iff (by linarith) (by linarith)]
        nlinarith
      · rw [div_le_one (by linarith)]
        linarith
    · rw [if_neg (by omega : ¬ t = 0)]
      dsimp only
      push_cast
      apply max_le _ ?h0
      · apply le_min
        · rw [div_le_div_iff (by linarith) (by linarith)]
          nlinarith
        · rw [div_le_one (by linarith)]
          linarith
      · apply le_min (by positivity) (by norm_num)
  · -- nonnegative high end
    rw [tile_slopes]
    rcases Nat.eq_zero_or_pos t with rfl | htpos
    · rw [if_pos rfl]
      dsimp only
      push_cast
      apply le_min (by positivity) (by norm_num)
    · rw [if_neg (by omega : ¬ t = 0)]
      dsimp only
      apply le_min (by positivity) (by norm_num)

/-- On the cardinal ray (`dsec = 0`) the whole-tile slope interval only
shrinks with distance. -/
theorem tile_slopes_zero_mono (q : ℕ) (hq : 1 ≤ q) :
    (tile_slopes q 0).1 ≤ (tile_slopes (q + 1) 0).1 ∧
      (tile_slopes (q + 1) 0).2 ≤ (tile_slopes q 0).2 := by
  have hQ1 : (1 : ℚ) ≤ (q : ℚ) := by exact_mod_cast hq
  have hd1 : (0 : ℚ) < (q : ℚ) - 1/2 := by linarith
  constructor
  · rw [tile_slopes, tile_slopes, if_pos rfl, if_pos rfl]
  · rw [tile_slopes, tile_slopes, if_pos rfl, if_pos rfl]
    dsimp only
    apply min_le_min _ le_rfl
    push_cast
    apply div_le_div_of_nonneg_left (by norm_num) (by linarith) (by linarith)

/-- Each of the four per-side slope intervals lies inside the whole-tile
slope interval of the same cell. -/
theorem wall_slopes_sub (p s : ℕ) (hp : 1 ≤ p) (hsp : s ≤ p) :
    ((tile_slopes p s).1 ≤ (tile_near_slopes p s).1 ∧
        (tile_near_slopes p s).2 ≤ (tile_slopes p s).2) ∧
      ((tile_slopes p s).1 ≤ (tile_far_slopes p s).1 ∧
        (tile_far_slopes p s).2 ≤ (tile_slopes p s).2) ∧
      ((tile_slopes p s).1 ≤ (tile_obtuse_slopes p s).1 ∧
        (tile_obtuse_slopes p s).2 ≤ (tile_slopes p s).2) ∧
      ((tile_slopes p s).1 ≤ (tile_acute_slopes p s).1 ∧
        (tile_acute_slopes p s).2 ≤ (tile_slopes p s).2) := by
  have hQ1 : (1 : ℚ) ≤ (p : ℚ) := by exact_mod_cast hp
  have hS : (s : ℚ) ≤ (p : ℚ) := by exact_mod_cast hsp
  have hS0 : (0 : ℚ) ≤ (s : ℚ) := by positivity
  have hd1 : (0 : ℚ) < (p : ℚ) - 1/2 := by linarith
  have hd2 : (0 : ℚ) < (p : ℚ) + 1/2 := by linarith
  rcases Nat.eq_zero_or_pos s with rfl | hspos
  · rw [tile_slopes, if_pos rfl, tile_near_slopes, tile_far_slopes,
      tile_obtuse_slopes, tile_acute_slopes, if_pos rfl]
    dsimp only
    refine ⟨⟨le_max_right _ _, le_rfl⟩, ⟨le_max_right _ _, ?_⟩,
      ⟨le_max_right _ _, le_rfl⟩, le_rfl, ?_⟩
    · apply min_le_min _ le_rfl
      apply div_le_div_of_nonneg_left (by positivity) (by linarith) (by linarith)
    · apply le_min (by positivity) (by norm_num)
  · have hS1 : (1 : ℚ) ≤ (s : ℚ) := by exact_mod_cast hspos
    rw [tile_slopes, if_neg (by omega : ¬ s = 0), tile_near_slopes,
      tile_far_slopes, tile_obtuse_slopes, tile_acute_slopes,
      if_neg (by omega : ¬ s = 0)]
    dsimp only
    refine ⟨⟨?_, le_rfl⟩, ⟨le_rfl, ?_⟩, ⟨?_, le_rfl⟩, le_rfl, ?_⟩
    · apply max_le_max _ le_rfl
      apply div_le_div_of_nonneg_left (by linarith) (by linarith) (by linarith)
    · apply min_le_min _ le_rfl
      apply div_le_div_of_nonneg_left (by positivity) (by linarith) (by linarith)
    · apply max_le_max _ le_rfl
      rw [div_le_div_iff (by linarith) (by linarith)]
      nlinarith
    · apply min_le_min _ le_rfl
      rw [div_le_div_iff (by linarith) (by linarith)]
      nlinarith

theorem FovTile.new_tile_bits (p s : ℕ) (o : Octant) :
    (FovTile.new p s o).tile_bits_1 = (tileQBits p s).1 ∧
      (FovTile.new p s o).tile_bits_2 = (tileQBits p s).2 :=
  ⟨rfl, rfl⟩

theorem FovTile.new_buffer_ix (p s : ℕ) (o : Octant) :
    (FovTile.new p s o).buffer_ix = 2 ^ s := rfl

theorem FovTile.new_buffer_bits (p s : ℕ) (o : Octant) :
    (FovTile.new p s o).buffer_bits =
      if s = 0 then 2 ^ s else 2 ^ s ||| 2 ^ s >>> 1 := by
  have hbb : (FovTile.new p s o).buffer_bits =
      if s = 0 then 2 ^ s else if s = p then 2 ^ s ||| 2 ^ s >>> 1
      else 2 ^ s ||| 2 ^ s >>> 1 := rfl
  rw [hbb]
  by_cases h0 : s = 0
  · rw [if_pos h0, if_pos h0]
  · rw [if_neg h0, if_neg h0]
    by_cases hsp : s = p
    · rw [if_pos hsp]
    · rw [if_neg hsp]

/-- Word-level inclusion of quantized slope bitfields under interval
inclusion. -/
theorem quant_sub_words (lo hi lo' hi' : ℚ) (hlo : lo ≤ lo') (hhi : hi' ≤ hi) :
    (quantized_slopes_256 lo' hi').1 &&& (quantized_slopes_256 lo hi).1 =
        (quantized_slopes_256 lo' hi').1 ∧
      (quantized_slopes_256 lo' hi').2 &&& (quantized_slopes_256 lo hi).2 =
        (quantized_slopes_256 lo' hi').2 :=
  pair_sub_words _ _ (quantized_slopes_256_lt _ _).1 (quantized_slopes_256_lt _ _).2
    (fun b hb => quantized_pairBit_mono lo hi lo' hi' hlo hhi b hb)

/-- The wall bitsets of a table entry are contained in its whole-tile
bitset, for every octant. -/
theorem wall_bits_sub_tile (p s : ℕ) (hp : 1 ≤ p) (hsp : s ≤ p) (o : Octant) :
    ((FovTile.new p s o).north_wall_bits_1 &&& (FovTile.new p s o).tile_bits_1 =
          (FovTile.new p s o).north_wall_bits_1 ∧
        (FovTile.new p s o).north_wall_bits_2 &&& (FovTile.new p s o).tile_bits_2 =
          (FovTile.new p s o).north_wall_bits_2) ∧
      ((FovTile.new p s o).west_wall_bits_1 &&& (FovTile.new p s o).tile_bits_1 =
          (FovTile.new p s o).west_wall_bits_1 ∧
        (FovTile.new p s o).west_wall_bits_2 &&& (FovTile.new p s o).tile_bits_2 =
          (FovTile.new p s o).west_wall_bits_2) := by
  obtain ⟨hnear, hfar, hobt, hacu⟩ := wall_slopes_sub p s hp hsp
  cases o
  · exact ⟨quant_sub_words _ _ _ _ hacu.1 hacu.2, quant_sub_words _ _ _ _ hnear.1 hnear.2⟩
  · exact ⟨quant_sub_words _ _ _ _ hnear.1 hnear.2, quant_sub_words _ _ _ _ hacu.1 hacu.2⟩
  · exact ⟨quant_sub_words _ _ _ _ hnear.1 hnear.2, quant_sub_words _ _ _ _ hobt.1 hobt.2⟩
  · exact ⟨quant_sub_words _ _ _ _ hacu.1 hacu.2, quant_sub_words _ _ _ _ hfar.1 hfar.2⟩
  · exact ⟨quant_sub_words _ _ _ _ hobt.1 hobt.2, quant_sub_words _ _ _ _ hfar.1 hfar.2⟩
  · exact ⟨quant_sub_words _ _ _ _ hfar.1 hfar.2, quant_sub_words _ _ _ _ hobt.1 hobt.2⟩
  · exact ⟨quant_sub_words _ _ _ _ hfar.1 hfar.2, quant_sub_words _ _ _ _ hacu.1 hacu.2⟩
  · exact ⟨quant_sub_words _ _ _ _ hobt.1 hobt.2, quant_sub_words _ _ _ _ hnear.1 hnear.2⟩

/-- Cardinal-ray pruning inclusion at word level. -/
theorem tileQBits_prune_zero (q : ℕ) (hq : 1 ≤ q) :
    (tileQBits (q + 1) 0).1 &&& (tileQBits q 0).1 = (tileQBits (q + 1) 0).1 ∧
      (tileQBits (q + 1) 0).2 &&& (tileQBits q 0).2 = (tileQBits (q + 1) 0).2 := by
  obtain ⟨h1, h2⟩ := tile_slopes_zero_mono q hq
  exact quant_sub_words _ _ _ _ h1 h2

/-- General pruning inclusion at word level: the tile bits of `(q+1, t+1)`
lie inside the union of the tile bits of `(q, t)` and `(q, t+1)`. -/
theorem tileQBits_prune_union (q t : ℕ) (hq : 1 ≤ q) (ht : t + 1 ≤ q) :
    (tileQBits (q + 1) (t + 1)).1 &&& ((tileQBits q t).1 ||| (tileQBits q (t + 1)).1) =
        (tileQBits (q + 1) (t + 1)).1 ∧
      (tileQBits (q + 1) (t + 1)).2 &&& ((tileQBits q t).2 ||| (tileQBits q (t + 1)).2) =
        (tileQBits (q + 1) (t + 1)).2 := by
  obtain ⟨h1, h2, h3, h4⟩ := tile_slopes_union q t hq ht
  refine pair_sub_words _ ((tileQBits q t).1 ||| (tileQBits q (t + 1)).1,
      (tileQBits q t).2 ||| (tileQBits q (t + 1)).2)
    (quantized_slopes_256_lt _ _).1 (quantized_slopes_256_lt _ _).2 ?_
  intro b hb
  have hu := quantized_pairBit_union (tile_slopes (q + 1) (t + 1)).1
    (tile_slopes (q + 1) (t + 1)).2 (tile_slopes q t).1 (tile_slopes q t).2
    (tile_slopes q (t + 1)).1 (tile_slopes q (t + 1)).2 h1 h2 h3 h4 b hb
  by_cases hb128 : b < 128
  · simp only [pairBit, if_pos hb128] at hu ⊢
    rw [Nat.testBit_or]
    rcases hu with h | h <;> simp [tileQBits, h]
  · simp only [pairBit, if_neg hb128] at hu ⊢
    rw [Nat.testBit_or]
    rcases hu with h | h <;> simp [tileQBits, h]

/-- If the tile span and both wall spans are already fully blocked, every
octant body is a no-op: blocked bits unchanged, no visible parts. -/
theorem body_blocked_noop (body : OctantBody)
    (hb : body = check_wnt ∨ body = check_nwt ∨ body = check_ntw ∨
      body = check_tnw ∨ body = check_wtn)
    (tile : Tile) (ft : FovTile) (b1 b2 : ℕ)
    (hti : is_visible ft.tile_bits_1 ft.tile_bits_2 b1 b2 = false)
    (hni : is_visible ft.north_wall_bits_1 ft.north_wall_bits_2 b1 b2 = false)
    (hwi : is_visible ft.west_wall_bits_1 ft.west_wall_bits_2 b1 b2 = false) :
    body tile ft b1 b2 = (b1, b2, 0) := by
  rcases hb with rfl | rfl | rfl | rfl | rfl <;>
    simp [check_wnt, check_nwt, check_ntw, check_tnw, check_wtn, hti, hni, hwi]

/-- Every octant body only ever adds blocked bits. -/
theorem body_blocked_mono (body : OctantBody)
    (hb : body = check_wnt ∨ body = check_nwt ∨ body = check_ntw ∨
      body = check_tnw ∨ body = check_wtn)
    (tile : Tile) (ft : FovTile) (b1 b2 : ℕ) :
    b1 &&& (body tile ft b1 b2).1 = b1 ∧
      b2 &&& (body tile ft b1 b2).2.1 = b2 := by
  rcases hb with rfl | rfl | rfl | rfl | rfl <;>
    · constructor <;>
      · rw [and_eq_left_iff_testBit]
        intro i h
        simp only [check_wnt, check_nwt, check_ntw, check_tnw, check_wtn]
        split_ifs <;> simp [Nat.testBit_or, h]

theorem and_one_ne_zero_of_testBit (x : ℕ) (h : x.testBit 0 = true) :
    x &&& 1 ≠ 0 := by
  rw [Nat.and_one_is_mod]
  rw [Nat.testBit_zero, decide_eq_true_iff] at h
  omega

/-- If a body reports the whole-tile part as unseen (bit 0 of the visible
parts clear), the tile span is fully blocked in the resulting bits. -/
theorem body_unseen_blocked (body : OctantBody)
    (hb : body = check_wnt ∨ body = check_nwt ∨ body = check_ntw ∨
      body = check_tnw ∨ body = check_wtn)
    (tile : Tile) (ft : FovTile) (b1 b2 : ℕ)
    (h : (body tile ft b1 b2).2.2 &&& 1 = 0) :
    ft.tile_bits_1 &&& (body tile ft b1 b2).1 = ft.tile_bits_1 ∧
      ft.tile_bits_2 &&& (body tile ft b1 b2).2.1 = ft.tile_bits_2 := by
  rcases hb with rfl | rfl | rfl | rfl | rfl <;>
    · simp only [check_wnt, check_nwt, check_ntw, check_tnw, check_wtn] at h ⊢
      split_ifs at h ⊢ <;>
        first
          | (have hv := (Bool.not_eq_true _) ▸
                ‹¬ is_visible ft.tile_bits_1 ft.tile_bits_2 _ _ = true›
             rw [is_visible_eq_false_iff] at hv
             exact ⟨subw_trans _ _ _ hv.1 (by
                  rw [and_eq_left_iff_testBit]
                  intro i hi
                  simp [Nat.testBit_or, hi]),
               subw_trans _ _ _ hv.2 (by
                  rw [and_eq_left_iff_testBit]
                  intro i hi
                  simp [Nat.testBit_or, hi])⟩)
          | (exact absurd h (and_one_ne_zero_of_testBit _
              (by simp [Nat.testBit_or, show Nat.testBit 1 0 = true from rfl])))
/-- One in-column iteration preserves the lockstep invariant: on a pruned
entry the reference body is a no-op, and on a processed entry both sweeps
perform the same update. -/
theorem sweep_ref_step (body : OctantBody)
    (hb : body = check_wnt ∨ body = check_nwt ∨ body = check_ntw ∨
      body = check_tnw ∨ body = check_wtn)
    (ox oy : ℤ) (tm : TileMap) (maxs : ℕ) (o : Octant) (p s : ℕ)
    (hp : 1 ≤ p) (hsp : s ≤ p) (st : SweepState) (rt : RefState)
    (hinv : sweep_invariant p st rt) :
    sweep_invariant p (sweepStep body ox oy tm maxs st (FovTile.new p s o))
      (refStep body ox oy tm maxs rt (FovTile.new p s o)) := by
  obtain ⟨hb1, hb2, hvis, hpp, hcur, hprev⟩ := hinv
  by_cases hflt : (FovTile.new p s o).dsec > maxs
  · rw [sweepStep, if_pos hflt, refStep, if_pos hflt]
    exact ⟨hb1, hb2, hvis, hpp, hcur, hprev⟩
  · rw [sweepStep, if_neg hflt, refStep, if_neg hflt]
    simp only [FovTile.new_dpri, hpp, gt_iff_lt, lt_self_iff_false, if_false,
      ite_false]
    have htile1 : (FovTile.new p s o).tile_bits_1 = (tileQBits p s).1 :=
      (FovTile.new_tile_bits p s o).1
    have htile2 : (FovTile.new p s o).tile_bits_2 = (tileQBits p s).2 :=
      (FovTile.new_tile_bits p s o).2
    by_cases hprn : (FovTile.new p s o).buffer_bits &&& st.prev_buffer =
        (FovTile.new p s o).buffer_bits
    · -- pruned entry: the reference body is a no-op
      rw [if_pos hprn]
      rw [FovTile.new_buffer_bits] at hprn
      have htQ : (tileQBits p s).1 &&& st.blocked_bits_1 = (tileQBits p s).1 ∧
          (tileQBits p s).2 &&& st.blocked_bits_2 = (tileQBits p s).2 := by
        by_cases hs0 : s = 0
        · subst hs0
          rw [if_pos rfl, and_eq_left_iff_testBit] at hprn
          have hbit := hprn 0 (by simp [Nat.testBit_two_pow])
          obtain ⟨h2p, _, hq1, hq2⟩ := hprev 0 hbit
          have hz := tileQBits_prune_zero (p - 1) (by omega)
          rw [show p - 1 + 1 = p from by omega] at hz
          exact ⟨subw_trans _ _ _ hz.1 hq1, subw_trans _ _ _ hz.2 hq2⟩
        · rw [if_neg hs0] at hprn
          have hshr : (2 : ℕ) ^ s >>> 1 = 2 ^ (s - 1) := by
            rw [Nat.shiftRight_eq_div_pow]
            rcases Nat.exists_eq_succ_of_ne_zero hs0 with ⟨t, rfl⟩
            rw [pow_succ]
            simp
          rw [hshr, and_eq_left_iff_testBit] at hprn
          have hbs := hprn s (by simp [Nat.testBit_or, Nat.testBit_two_pow])
          have hbs1 := hprn (s - 1)
            (by simp [Nat.testBit_or, Nat.testBit_two_pow])
          obtain ⟨h2p, hs1p, hq1, hq2⟩ := hprev s hbs
          obtain ⟨_, _, hq1', hq2'⟩ := hprev (s - 1) hbs1
          have hu := tileQBits_prune_union (p - 1) (s - 1) (by omega) (by omega)
          rw [show p - 1 + 1 = p from by omega,
            show s - 1 + 1 = s from by omega] at hu
          exact ⟨subw_trans _ _ _ hu.1 (or_subw _ _ _ hq1' hq1),
            subw_trans _ _ _ hu.2 (or_subw _ _ _ hq2' hq2)⟩
      have hwall := wall_bits_sub_tile p s hp hsp o
      have hti : is_visible (FovTile.new p s o).tile_bits_1
          (FovTile.new p s o).tile_bits_2 st.blocked_bits_1 st.blocked_bits_2 = false := by
        rw [is_visible_eq_false_iff, htile1, htile2]
        exact htQ
      have hni : is_visible (FovTile.new p s o).north_wall_bits_1
          (FovTile.new p s o).north_wall_bits_2 st.blocked_bits_1 st.blocked_bits_2 = false := by
        rw [is_visible_eq_false_iff]
        exact ⟨subw_trans _ _ _ (htile1 ▸ hwall.1.1) htQ.1,
          subw_trans _ _ _ (htile2 ▸ hwall.1.2) htQ.2⟩
      have hwi : is_visible (FovTile.new p s o).west_wall_bits_1
          (FovTile.new p s o).west_wall_bits_2 st.blocked_bits_1 st.blocked_bits_2 = false := by
        rw [is_visible_eq_false_iff]
        exact ⟨subw_trans _ _ _ (htile1 ▸ hwall.2.1) htQ.1,
          subw_trans _ _ _ (htile2 ▸ hwall.2.2) htQ.2⟩
      have hnoop := body_blocked_noop body hb
        (tm.tile_at (ox + (FovTile.new p s o).rx) (oy + (FovTile.new p s o).ry))
        (FovTile.new p s o) rt.blocked_bits_1 rt.blocked_bits_2
        (by rw [← hb1, ← hb2]; exact hti) (by rw [← hb1, ← hb2]; exact hni)
        (by rw [← hb1, ← hb2]; exact hwi)
      refine ⟨by simp only [hnoop, hb1], by simp only [hnoop, hb2],
        by simp only [hnoop, hvis, gt_iff_lt, lt_self_iff_false, if_false, ite_false],
        rfl, ?_, ?_⟩
      · intro i hi
        replace hi : (st.curr_buffer ||| (FovTile.new p s o).buffer_ix).testBit i =
          true := hi
        rw [FovTile.new_buffer_ix, Nat.testBit_or] at hi
        rcases Bool.or_eq_true_iff.mp hi with hold | hnew
        · exact hcur i hold
        · rw [Nat.testBit_two_pow, decide_eq_true_iff] at hnew
          subst hnew
          exact ⟨hsp, htQ⟩
      · intro i hi
        replace hi : st.prev_buffer.testBit i = true := hi
        exact hprev i hi
    · -- processed entry: both sweeps run the same body
      rw [if_neg hprn]
      have hmono := body_blocked_mono body hb
        (tm.tile_at (ox + (FovTile.new p s o).rx) (oy + (FovTile.new p s o).ry))
        (FovTile.new p s o) st.blocked_bits_1 st.blocked_bits_2
      refine ⟨by rw [hb1, hb2], by rw [hb1, hb2], by rw [hb1, hb2, hvis],
        FovTile.new_dpri p s o, ?_, ?_⟩
      · intro i hi
        replace hi : (if (body
            (tm.tile_at (ox + (FovTile.new p s o).rx) (oy + (FovTile.new p s o).ry))
            (FovTile.new p s o) st.blocked_bits_1 st.blocked_bits_2).2.2 &&& 1 = 0
            then st.curr_buffer ||| (FovTile.new p s o).buffer_ix
            else st.curr_buffer).testBit i = true := hi
        by_cases hseen : (body
            (tm.tile_at (ox + (FovTile.new p s o).rx) (oy + (FovTile.new p s o).ry))
            (FovTile.new p s o) st.blocked_bits_1 st.blocked_bits_2).2.2 &&& 1 = 0
        · rw [if_pos hseen, FovTile.new_buffer_ix, Nat.testBit_or] at hi
          rcases Bool.or_eq_true_iff.mp hi with hold | hnew
          · obtain ⟨hle, hq1, hq2⟩ := hcur i hold
            exact ⟨hle, subw_trans _ _ _ hq1 hmono.1, subw_trans _ _ _ hq2 hmono.2⟩
          · rw [Nat.testBit_two_pow, decide_eq_true_iff] at hnew
            subst hnew
            have hub := body_unseen_blocked body hb _ _ _ _ hseen
            rw [htile1, htile2] at hub
            exact ⟨hsp, hub⟩
        · rw [if_neg hseen] at hi
          obtain ⟨hle, hq1, hq2⟩ := hcur i hi
          exact ⟨hle, subw_trans _ _ _ hq1 hmono.1, subw_trans _ _ _ hq2 hmono.2⟩
      · intro i hi
        replace hi : st.prev_buffer.testBit i = true := hi
        obtain ⟨h2p, hs1p, hq1, hq2⟩ := hprev i hi
        exact ⟨h2p, hs1p, subw_trans _ _ _ hq1 hmono.1, subw_trans _ _ _ hq2 hmono.2⟩

/-- Folding one column's entries (all at the same `dpri = p`) preserves the
lockstep invariant. -/
theorem sweep_ref_fold (body : OctantBody)
    (hb : body = check_wnt ∨ body = check_nwt ∨ body = check_ntw ∨
      body = check_tnw ∨ body = check_wtn)
    (ox oy : ℤ) (tm : TileMap) (maxs : ℕ) (o : Octant) (p : ℕ) (hp : 1 ≤ p)
    (l : List FovTile)
    (hl : ∀ t ∈ l, ∃ s, s ≤ p ∧ t = FovTile.new p s o)
    (st : SweepState) (rt : RefState) (hinv : sweep_invariant p st rt) :
    sweep_invariant p (l.foldl (sweepStep body ox oy tm maxs) st)
      (l.foldl (refStep body ox oy tm maxs) rt) := by
  have main : ∀ l' : List FovTile,
      (∀ t ∈ l', ∃ s, s ≤ p ∧ t = FovTile.new p s o) →
      ∀ st' rt', sweep_invariant p st' rt' →
        sweep_invariant p (l'.foldl (sweepStep body ox oy tm maxs) st')
          (l'.foldl (refStep body ox oy tm maxs) rt') := by
    intro l'
    induction l' with
    | nil => exact fun _ _ _ h => h
    | cons t l' ih =>
      intro hl' st' rt' hinv'
      obtain ⟨s, hs, rfl⟩ := hl' t (List.mem_cons_self t l')
      rw [List.foldl_cons, List.foldl_cons]
      exact ih (fun t ht => hl' t (List.mem_cons_of_mem _ ht)) _ _
        (sweep_ref_step body hb ox oy tm maxs o p s hp hs st' rt' hinv')
  exact main l hl st rt hinv

/-- The first (shift) iteration of a new column factors through the
explicitly shifted state. -/
theorem sweepStep_shift (body : OctantBody) (ox oy : ℤ) (tm : TileMap)
    (maxs : ℕ) (st : SweepState) (ft : FovTile)
    (hd : ¬ ft.dsec > maxs) (hp : ft.dpri = st.prev_pri + 1) :
    sweepStep body ox oy tm maxs st ft =
      sweepStep body ox oy tm maxs
        ⟨st.blocked_bits_1, st.blocked_bits_2, st.visible_tiles,
          st.curr_buffer, 0, st.prev_pri + 1⟩ ft := by
  rw [sweepStep, sweepStep, if_neg hd, if_neg hd, hp]
  simp only [gt_iff_lt, Nat.lt_succ_self, lt_self_iff_false, if_true, if_false,
    ite_true, ite_false]

theorem shaping_zero (r p : ℕ) (h1 : 1 ≤ p) (hr : p ≤ r) :
    shaping_included r p 0 = true := by
  rw [shaping_included_iff r p 0 h1]
  have hp : (1 : ℚ) ≤ (p : ℚ) := by exact_mod_cast h1
  have hpr : (p : ℚ) ≤ (r : ℚ) := by exact_mod_cast hr
  push_cast
  nlinarith

/-- Every nonempty column starts with its `dsec = 0` entry. -/
theorem octant_column_structure (r p : ℕ) (h1 : 1 ≤ p) (hr : p ≤ r) (o : Octant) :
    ∃ tl, octant_column r p o = FovTile.new p 0 o :: tl := by
  rw [octant_column, List.range_succ_eq_map,
    List.filter_cons_of_pos (shaping_zero r p h1 hr), List.map_cons]
  exact ⟨_, rfl⟩

/-- Processing a whole column advances the lockstep invariant by one
column index. -/
theorem sweep_ref_column (body : OctantBody)
    (hb : body = check_wnt ∨ body = check_nwt ∨ body = check_ntw ∨
      body = check_tnw ∨ body = check_wtn)
    (ox oy : ℤ) (tm : TileMap) (maxs : ℕ) (o : Octant) (R k : ℕ)
    (hk : k + 1 ≤ R) (st : SweepState) (rt : RefState)
    (hinv : sweep_invariant k st rt) (hcz : 1 ≤ k ∨ st.curr_buffer = 0) :
    sweep_invariant (k + 1)
      ((octant_column R (k + 1) o).foldl (sweepStep body ox oy tm maxs) st)
      ((octant_column R (k + 1) o).foldl (refStep body ox oy tm maxs) rt) := by
  obtain ⟨hb1, hb2, hvis, hpp, hcur, hprev⟩ := hinv
  obtain ⟨tl, hcol⟩ := octant_column_structure R (k + 1) (by omega) hk o
  have hmem : ∀ t ∈ octant_column R (k + 1) o,
      ∃ s, s ≤ k + 1 ∧ t = FovTile.new (k + 1) s o := by
    intro t ht
    rw [octant_column, List.mem_map] at ht
    obtain ⟨s, hs, rfl⟩ := ht
    rw [List.mem_filter, List.mem_range] at hs
    exact ⟨s, by omega, rfl⟩
  rw [hcol, List.foldl_cons, List.foldl_cons]
  have hd0 : ¬ (FovTile.new (k + 1) 0 o).dsec > maxs := by
    rw [FovTile.new_dsec]
    omega
  rw [sweepStep_shift body ox oy tm maxs st (FovTile.new (k + 1) 0 o) hd0
    (by rw [FovTile.new_dpri, hpp])]
  have hinv1 : sweep_invariant (k + 1)
      ⟨st.blocked_bits_1, st.blocked_bits_2, st.visible_tiles,
        st.curr_buffer, 0, st.prev_pri + 1⟩ rt := by
    refine ⟨hb1, hb2, hvis, by rw [hpp], ?_, ?_⟩
    · intro s hs
      replace hs : (0 : ℕ).testBit s = true := hs
      simp [Nat.zero_testBit] at hs
    · intro s hs
      replace hs : st.curr_buffer.testBit s = true := hs
      obtain ⟨hsk, hq1, hq2⟩ := hcur s hs
      have hk1 : 1 ≤ k := by
        rcases hcz with h | h
        · exact h
        · rw [h] at hs
          simp [Nat.zero_testBit] at hs
      refine ⟨by omega, by omega, ?_, ?_⟩
      · rw [show k + 1 - 1 = k from by omega]
        exact hq1
      · rw [show k + 1 - 1 = k from by omega]
        exact hq2
  exact sweep_ref_fold body hb ox oy tm maxs o (k + 1) (by omega) tl
    (fun t ht => hmem t (hcol ▸ List.mem_cons_of_mem _ ht)) _ _
    (sweep_ref_step body hb ox oy tm maxs o (k + 1) 0 (by omega) (by omega) _ rt hinv1)

/-- The runtime table slice `fov_tiles[:max_fov_ix[maxd]]` is exactly the
concatenation of the first `maxd` columns. -/
theorem sliced_columns (R d : ℕ) (o : Octant) (hd : d ≤ R) :
    (FovOctant.new R o).tiles.take ((FovOctant.new R o).max_fov_ix.getD d 0) =
      (List.range d).flatMap (fun i => octant_column R (i + 1) o) := by
  rw [(fovOctant_new_spec R o).2.2.2 d hd, fovOctant_tiles_eq,
    List.filter_flatMap]
  have hsplit : List.range R = List.range d ++ (List.range (R - d)).map (d + ·) := by
    conv_lhs => rw [show R = d + (R - d) from by omega]
    exact List.range_add d (R - d)
  rw [hsplit, List.flatMap_append]
  have h1 : (List.range d).flatMap
      (fun i => (octant_column R (i + 1) o).filter fun t => decide (t.dpri ≤ d)) =
      (List.range d).flatMap (fun i => octant_column R (i + 1) o) := by
    apply List.flatMap_congr
    intro i hi
    rw [List.mem_range] at hi
    apply List.filter_eq_self.mpr
    intro t ht
    obtain ⟨htd, _, _⟩ := mem_octant_column R (i + 1) o t ht
    rw [decide_eq_true_iff]
    omega
  have h2 : (((List.range (R - d)).map (d + ·)).flatMap
      (fun i => (octant_column R (i + 1) o).filter fun t => decide (t.dpri ≤ d))) = [] := by
    rw [List.flatMap_eq_nil_iff]
    intro l hl
    rw [List.mem_map] at hl
    obtain ⟨j, _, rfl⟩ := hl
    rw [List.filter_eq_nil_iff]
    intro t ht
    obtain ⟨htd, _, _⟩ := mem_octant_column R (d + j + 1) o t ht
    rw [decide_eq_true_iff]
    omega
  rw [h1, h2, List.append_nil]

/-- The pruned sweep and the pruning-free reference sweep return the same
visible-tiles list, for any tilemap, origin, boundary radii, initial
blocked seed, and any of the five octant bodies, over a constructed
octant table. -/
theorem runSweep_ref_eq (body : OctantBody)
    (hb : body = check_wnt ∨ body = check_nwt ∨ body = check_ntw ∨
      body = check_tnw ∨ body = check_wtn)
    (ox oy : ℤ) (maxd maxs : ℕ) (tm : TileMap) (R : ℕ) (o : Octant)
    (B1 B2 : ℕ) :
    runSweep body ox oy maxd maxs tm (FovOctant.new R o) ⟨B1, B2, [], 0, 0, 0⟩ =
      runSweepRef body ox oy maxd maxs tm (FovOctant.new R o) ⟨B1, B2, []⟩ := by
  rw [runSweep, runSweepRef]
  by_cases hdR : maxd ≤ R
  · rw [sliced_columns R maxd o hdR]
    have haux : ∀ d, d ≤ R →
        sweep_invariant d
          (((List.range d).flatMap (fun i => octant_column R (i + 1) o)).foldl
            (sweepStep body ox oy tm maxs) ⟨B1, B2, [], 0, 0, 0⟩)
          (((List.range d).flatMap (fun i => octant_column R (i + 1) o)).foldl
            (refStep body ox oy tm maxs) ⟨B1, B2, []⟩) := by
      intro d
      induction d with
      | zero =>
        intro _
        refine ⟨rfl, rfl, rfl, rfl, ?_, ?_⟩
        · intro s hs
          replace hs : (0 : ℕ).testBit s = true := hs
          simp [Nat.zero_testBit] at hs
        · intro s hs
          replace hs : (0 : ℕ).testBit s = true := hs
          simp [Nat.zero_testBit] at hs
      | succ k ih =>
        intro hk
        rw [List.range_succ, List.flatMap_append, List.flatMap_cons,
          List.flatMap_nil, List.append_nil, List.foldl_append, List.foldl_append]
        apply sweep_ref_column body hb ox oy tm maxs o R k hk _ _ (ih (by omega))
        rcases Nat.eq_zero_or_pos k with rfl | hk1
        · right
          rfl
        · left
          exact hk1
    exact (haux maxd hdR).2.2.1
  · rw [List.getD_eq_default _ _ (by
      rw [(fovOctant_new_spec R o).2.2.1]
      omega)]
    rfl

/-- Claim C3: for every tilemap, origin, boundary radii and build radius,
each of the eight per-octant sweeps returns exactly the same visible-tiles
list as the pruning-free reference sweep that tests every entry within the
`dsec` bound against the blocked bitsets: the buffer-pruning shortcut
never changes which tiles or parts are reported. -/
theorem get_visible_tiles_pruning_equiv (ox oy : ℤ) (origin : Tile)
    (maxd maxs R : ℕ) (tm : TileMap) :
    get_visible_tiles_1 ox oy maxd maxs tm (FovOctant.new R .O1) =
        get_visible_tiles_1_ref ox oy maxd maxs tm (FovOctant.new R .O1) ∧
      get_visible_tiles_2 ox oy maxd maxs tm (FovOctant.new R .O2) =
        get_visible_tiles_2_ref ox oy maxd maxs tm (FovOctant.new R .O2) ∧
      get_visible_tiles_3 ox oy origin maxd maxs tm (FovOctant.new R .O3) =
        get_visible_tiles_3_ref ox oy origin maxd maxs tm (FovOctant.new R .O3) ∧
      get_visible_tiles_4 ox oy origin maxd maxs tm (FovOctant.new R .O4) =
        get_visible_tiles_4_ref ox oy origin maxd maxs tm (FovOctant.new R .O4) ∧
      get_visible_tiles_5 ox oy origin maxd maxs tm (FovOctant.new R .O5) =
        get_visible_tiles_5_ref ox oy origin maxd maxs tm (FovOctant.new R .O5) ∧
      get_visible_tiles_6 ox oy origin maxd maxs tm (FovOctant.new R .O6) =
        get_visible_tiles_6_ref ox oy origin maxd maxs tm (FovOctant.new R .O6) ∧
      get_visible_tiles_7 ox oy origin maxd maxs tm (FovOctant.new R .O7) =
        get_visible_tiles_7_ref ox oy origin maxd maxs tm (FovOctant.new R .O7) ∧
      get_visible_tiles_8 ox oy maxd maxs tm (FovOctant.new R .O8) =
        get_visible_tiles_8_ref ox oy maxd maxs tm (FovOctant.new R .O8) := by
  refine ⟨?_, ?_, ?_, ?_, ?_, ?_, ?_, ?_⟩
  · exact runSweep_ref_eq check_wnt (Or.inl rfl) ox oy maxd maxs tm R .O1 0 0
  · exact runSweep_ref_eq check_nwt (Or.inr (Or.inl rfl)) ox oy maxd maxs tm R .O2 0 0
  · rw [get_visible_tiles_3, get_visible_tiles_3_ref]
    by_cases hw : origin.wall_w ≠ 0
    · rw [if_pos hw, if_pos hw]
      exact runSweep_ref_eq check_ntw (Or.inr (Or.inr (Or.inl rfl))) ox oy
        maxd maxs tm R .O3 0 (0 ||| 170141183460469231731687303715884105728)
    · rw [if_neg hw, if_neg hw]
      exact runSweep_ref_eq check_ntw (Or.inr (Or.inr (Or.inl rfl))) ox oy
        maxd maxs tm R .O3 0 0
  · rw [get_visible_tiles_4, get_visible_tiles_4_ref]
    by_cases hw : origin.wall_w ≠ 0
    · rw [if_pos hw, if_pos hw]
    · rw [if_neg hw, if_neg hw]
      exact runSweep_ref_eq check_ntw (Or.inr (Or.inr (Or.inl rfl))) ox oy
        maxd maxs tm R .O4 0 0
  · rw [get_visible_tiles_5, get_visible_tiles_5_ref]
    by_cases hw : origin.wall_w ≠ 0
    · rw [if_pos hw, if_pos hw]
    · rw [if_neg hw, if_neg hw]
      exact runSweep_ref_eq check_tnw (Or.inr (Or.inr (Or.inr (Or.inl rfl)))) ox oy
        maxd maxs tm R .O5 0 0
  · rw [get_visible_tiles_6, get_visible_tiles_6_ref]
    by_cases hn : origin.wall_n ≠ 0
    · rw [if_pos hn, if_pos hn]
    · rw [if_neg hn, if_neg hn]
      exact runSweep_ref_eq check_tnw (Or.inr (Or.inr (Or.inr (Or.inl rfl)))) ox oy
        maxd maxs tm R .O6 0 0
  · rw [get_visible_tiles_7, get_visible_tiles_7_ref]
    by_cases hn : origin.wall_n ≠ 0
    · rw [if_pos hn, if_pos hn]
    · rw [if_neg hn, if_neg hn]
      exact runSweep_ref_eq check_wtn (Or.inr (Or.inr (Or.inr (Or.inr rfl)))) ox oy
        maxd maxs tm R .O7 0 0
  · exact runSweep_ref_eq check_wtn (Or.inr (Or.inr (Or.inr (Or.inr rfl)))) ox oy
      maxd maxs tm R .O8 0 0

end Fov
